import Mathlib

/-!
Verification development for the movie-database YAML → relational loader
(`load_data.py`).  The pipeline is shallowly embedded: parsed YAML documents
become `RawDoc` values (fields are `Option`s so missing keys — Python
`KeyError`s — are representable), the relational store becomes a `DB` record
of row lists, and the psycopg2 connection becomes a `Conn` carrying both the
committed snapshot and the current (uncommitted) transaction state.  Python
exceptions become the `LoadErr` sum; an exception leaves the connection with
its pending writes still in the open transaction, exactly as psycopg2 does.
-/

set_option autoImplicit false

namespace MovieDB

/-- A calendar date as produced by `datetime.strptime(s, '%d %B %Y').date()`. -/
structure Date where
  day : Nat
  month : Nat
  year : Nat
deriving DecidableEq, Repr

/-- English month names accepted by the `%B` directive. -/
def monthNames : List String :=
  ["January", "February", "March", "April", "May", "June",
   "July", "August", "September", "October", "November", "December"]

/-- 1-based month number for a month name, if it is one. -/
def monthIndex (s : String) : Option Nat :=
  (monthNames.indexOf? s).map (· + 1)

/-- Whether `y` is a leap year (Gregorian rule, as Python's `datetime`). -/
def isLeap (y : Nat) : Bool :=
  (y % 4 == 0 && y % 100 != 0) || (y % 400 == 0)

/-- Days in a month, as validated by Python's `datetime.date`. -/
def daysInMonth (m y : Nat) : Nat :=
  if m == 2 then (if isLeap y then 29 else 28)
  else if m == 4 || m == 6 || m == 9 || m == 11 then 30
  else 31

/-- Split a character list on spaces (the behaviour of `str.split`-style
tokenizing used to match the `'%d %B %Y'` format). -/
def splitSpaces (cs : List Char) (acc : List Char) : List (List Char) :=
  match cs with
  | [] => [acc.reverse]
  | c :: rest =>
    if c = ' ' then acc.reverse :: splitSpaces rest []
    else splitSpaces rest (c :: acc)

/-- The numeric value of a decimal digit character, if it is one. -/
def charDigit (c : Char) : Option Nat :=
  if 48 ≤ c.toNat && c.toNat ≤ 57 then some (c.toNat - 48) else none

/-- Accumulate a decimal value over a digit string. -/
def digitsValAux (acc : Nat) (cs : List Char) : Option Nat :=
  match cs with
  | [] => some acc
  | c :: rest =>
    match charDigit c with
    | some d => digitsValAux (10 * acc + d) rest
    | none => none

/-- The decimal value of a non-empty all-digit token. -/
def digitsVal (cs : List Char) : Option Nat :=
  match cs with
  | [] => none
  | _ => digitsValAux 0 cs

/-- Model of `datetime.strptime(s, '%d %B %Y').date()` (load_data.py line 33):
three space-separated tokens — a day number, an English month name, a year —
validated against the calendar; `none` models the `ValueError` raised on a
malformed date. -/
def parseDate (s : String) : Option Date :=
  match splitSpaces s.data [] with
  | [d, m, y] =>
    match digitsVal d, monthIndex (String.mk m), digitsVal y with
    | some dn, some mn, some yn =>
      if 1 ≤ dn && dn ≤ daysInMonth mn yn && 1 ≤ yn && yn ≤ 9999 then
        some ⟨dn, mn, yn⟩
      else none
    | _, _, _ => none
  | _ => none

/-- A row of the `movies` table. -/
structure MovieRow where
  movie_id : Nat
  movie_name : String
  release_date : Date
  director : String
  producer : String
  music_director : String
  lyricist : String
deriving DecidableEq, Repr

/-- A row of the `cast_members` table. -/
structure CastRow where
  cast_id : Nat
  cast_name : String
deriving DecidableEq, Repr

/-- A row of the `songs` table. -/
structure SongRow where
  song_id : Nat
  movie_id : Nat
  song_name : String
  song_order : Nat
deriving DecidableEq, Repr

/-- A row of the `commentaries` table (its serial surrogate key is never
read anywhere in the repository, so it is not modelled). -/
structure CommentaryRow where
  movie_id : Nat
  song_id : Option Nat
  commentary_type : String
  language : String
  commentary_text : String
deriving DecidableEq, Repr

/-- The relational store: the four entity tables plus the association table,
and the next value of each serial surrogate-key sequence.

Modelled from the spec: the schema itself lives in `setup_database.sql`,
which is not part of the sources; per the spec's data model, `movie_name`
is unique in `movies`, `cast_name` is unique in `cast_members`,
`(movie_id, cast_id)` is unique in `movie_cast`, and `(movie_id, song_name)`
is unique in `songs` (the loader's `ON CONFLICT` clauses rely on exactly
these constraints). -/
structure DB where
  movies : List MovieRow
  castMembers : List CastRow
  movieCast : List (Nat × Nat)
  songs : List SongRow
  commentaries : List CommentaryRow
  nextMovieId : Nat
  nextCastId : Nat
  nextSongId : Nat
deriving DecidableEq, Repr

/-- The empty store. -/
def emptyDB : DB := ⟨[], [], [], [], [], 0, 0, 0⟩

/-- A psycopg2 connection: the committed snapshot visible outside the
session, and the current state including the open transaction's pending
writes (which the session's own reads see). `commit` copies current to
committed; nothing in `load_data.py` ever rolls back. -/
structure Conn where
  committed : DB
  current : DB
deriving DecidableEq, Repr

/-- A freshly opened connection to an empty store. -/
def initConn : Conn := ⟨emptyDB, emptyDB⟩

/-- Python exceptions that `load_yaml_file` can raise. -/
inductive LoadErr where
  /-- `KeyError` from a missing mapping key (the string names the key). -/
  | keyErr : String → LoadErr
  /-- `ValueError` from `datetime.strptime` on a malformed date. -/
  | valueErr : LoadErr
  /-- `TypeError` from subscripting the `None` returned by `fetchone()`. -/
  | typeErr : LoadErr
  /-- `IndexError` from `list(commentary_data.keys())[0]` on an empty block. -/
  | indexErr : LoadErr
  /-- `psycopg2.OperationalError`: the store is unreachable. -/
  | connectivity : LoadErr
deriving DecidableEq, Repr

/-- The `metadata` block of a parsed YAML document; every field is optional
because the YAML may omit any key. -/
structure RawMeta where
  movie_name : Option String
  release_date : Option String
  director : Option String
  producer : Option String
  music_director : Option String
  lyricist : Option String
  cast : Option (List String)
deriving DecidableEq, Repr

/-- A parsed YAML document as `yaml.safe_load` returns it.  A per-language
commentary block is an insertion-ordered mapping, modelled as an association
list from key (movie name or song name) to commentary text. -/
structure RawDoc where
  metadata : Option RawMeta
  songs_order : Option (List String)
  commentary_type : Option String
  commentaries : Option (List (String × List (String × String)))
deriving DecidableEq, Repr

/-- The movie name of a document, when present. -/
def docMovieName (d : RawDoc) : Option String :=
  d.metadata.bind (·.movie_name)

/-- The cast list of a document (empty when absent). -/
def docCast (d : RawDoc) : List String :=
  (d.metadata.bind (·.cast)).getD []

/-- First value bound to key `k` in an association-list mapping. -/
def lookupAssoc (l : List (String × String)) (k : String) : Option String :=
  (l.find? (fun p => p.1 == k)).map (·.2)

/-- Python-dict assignment `m[k] = v` on an association list: replaces the
value in place when the key is present, appends otherwise. -/
def assocUpsert (l : List (String × Nat)) (k : String) (v : Nat) : List (String × Nat) :=
  if l.any (fun p => p.1 == k) then
    l.map (fun p => if p.1 == k then (k, v) else p)
  else l ++ [(k, v)]

/-- `INSERT INTO movies ... ON CONFLICT DO NOTHING RETURNING movie_id`
(lines 35–47): suppressed when a row with the same `movie_name` exists
(the table's only natural-key constraint), otherwise inserts with the next
serial id; returns the new id only on actual insertion. -/
def insertMovieCond (db : DB) (nm : String) (rd : Date)
    (di pr mu ly : String) : DB × Option Nat :=
  if db.movies.any (fun r => r.movie_name == nm) then (db, none)
  else
    ({ db with
        movies := db.movies ++ [⟨db.nextMovieId, nm, rd, di, pr, mu, ly⟩],
        nextMovieId := db.nextMovieId + 1 },
      some db.nextMovieId)

/-- `SELECT movie_id FROM movies WHERE movie_name = %s` (line 53). -/
def selectMovieIdByName (db : DB) (nm : String) : Option Nat :=
  (db.movies.find? (fun r => r.movie_name == nm)).map (·.movie_id)

/-- `INSERT INTO cast_members (cast_name) VALUES (%s) ON CONFLICT DO NOTHING`
(line 60). -/
def insertCastCond (db : DB) (n : String) : DB :=
  if db.castMembers.any (fun r => r.cast_name == n) then db
  else
    { db with
        castMembers := db.castMembers ++ [⟨db.nextCastId, n⟩],
        nextCastId := db.nextCastId + 1 }

/-- `SELECT cast_id FROM cast_members WHERE cast_name = %s` (line 61). -/
def selectCastIdByName (db : DB) (n : String) : Option Nat :=
  (db.castMembers.find? (fun r => r.cast_name == n)).map (·.cast_id)

/-- `INSERT INTO movie_cast VALUES (%s, %s) ON CONFLICT DO NOTHING`
(line 63). -/
def insertMovieCastCond (db : DB) (mid cid : Nat) : DB :=
  if db.movieCast.any (fun p => p.1 == mid && p.2 == cid) then db
  else { db with movieCast := db.movieCast ++ [(mid, cid)] }

/-- `INSERT INTO songs ... ON CONFLICT (movie_id, song_name) DO UPDATE SET
song_order = EXCLUDED.song_order RETURNING song_id` (lines 70–75).  Under
the unique key constraint at most one row matches the key, so updating every
matching row coincides with the store's behaviour. -/
def upsertSong (db : DB) (m : Nat) (n : String) (ord : Nat) : DB × Nat :=
  match db.songs.find? (fun s => s.movie_id == m && s.song_name == n) with
  | some s =>
    ({ db with
        songs := db.songs.map (fun r =>
          if r.movie_id == m && r.song_name == n then
            { r with song_order := ord }
          else r) },
      s.song_id)
  | none =>
    ({ db with
        songs := db.songs ++ [⟨db.nextSongId, m, n, ord⟩],
        nextSongId := db.nextSongId + 1 },
      db.nextSongId)

/-- `INSERT INTO commentaries ... VALUES (...)` (lines 87–89 and 95–97):
plain append, no uniqueness constraint. -/
def appendComm (db : DB) (mid : Nat) (sid : Option Nat)
    (ct lang text : String) : DB :=
  { db with commentaries := db.commentaries ++ [⟨mid, sid, ct, lang, text⟩] }

/-- Lines 33–54: parse the release date, insert-or-skip the movie, and on a
suppressed insert recover the identity by the natural-key lookup; the dead
branch where even the lookup finds nothing models `fetchone()[0]` raising
`TypeError`. -/
def resolveMovieMeta (meta : RawMeta) (db : DB) : Except (LoadErr × DB) (DB × Nat) :=
  match meta.release_date with
  | none => .error (.keyErr "release_date", db)
  | some rds =>
  match parseDate rds with
  | none => .error (.valueErr, db)
  | some rd =>
  match meta.movie_name with
  | none => .error (.keyErr "movie_name", db)
  | some nm =>
  match meta.director with
  | none => .error (.keyErr "director", db)
  | some di =>
  match meta.producer with
  | none => .error (.keyErr "producer", db)
  | some pr =>
  match meta.music_director with
  | none => .error (.keyErr "music_director", db)
  | some mu =>
  match meta.lyricist with
  | none => .error (.keyErr "lyricist", db)
  | some ly =>
  match insertMovieCond db nm rd di pr mu ly with
  | (db1, some mid) => .ok (db1, mid)
  | (db1, none) =>
    match selectMovieIdByName db1 nm with
    | some mid => .ok (db1, mid)
    | none => .error (.typeErr, db1)

/-- One iteration of the cast loop (lines 60–63) for one name. -/
def insertOneCast (mid : Nat) (db : DB) (n : String) : Except (LoadErr × DB) DB :=
  let db1 := insertCastCond db n
  match selectCastIdByName db1 n with
  | none => .error (.typeErr, db1)
  | some cid => .ok (insertMovieCastCond db1 mid cid)

/-- The cast loop (lines 59–63). -/
def resolveCastStep (mid : Nat) (names : List String) (db : DB) :
    Except (LoadErr × DB) DB :=
  match names with
  | [] => .ok db
  | n :: rest =>
    match insertOneCast mid db n with
    | .error e => .error e
    | .ok db1 => resolveCastStep mid rest db1

/-- The song loop (lines 68–77) from a given 1-based ordinal, threading the
`song_mapping` dict. -/
def insertSongsFrom (m : Nat) (idx : Nat) (names : List String) (db : DB)
    (mapping : List (String × Nat)) : DB × List (String × Nat) :=
  match names with
  | [] => (db, mapping)
  | n :: rest =>
    let p := upsertSong db m n idx
    insertSongsFrom m (idx + 1) rest p.1 (assocUpsert mapping n p.2)

/-- `for idx, song_name in enumerate(data['songs_order'], start=1)`:
the song loop starting at ordinal 1 with an empty `song_mapping`. -/
def resolveSongsStep (m : Nat) (names : List String) (db : DB) :
    DB × List (String × Nat) :=
  insertSongsFrom m 1 names db []

/-- The song-commentary inner loop (lines 93–98): for each `song_mapping`
entry in insertion order, append a commentary row when the block has a text
for that song name. -/
def insertSongComms (mid : Nat) (ct lang : String)
    (block : List (String × String)) (mapping : List (String × Nat))
    (db : DB) : DB :=
  match mapping with
  | [] => db
  | (sn, sid) :: rest =>
    match lookupAssoc block sn with
    | some text =>
      insertSongComms mid ct lang block rest (appendComm db mid (some sid) ct lang text)
    | none => insertSongComms mid ct lang block rest db

/-- One per-language block (lines 83–98): take the block's first key as the
movie-level key (`IndexError` on an empty block), read the commentary kind
(`KeyError` when `commentary_type` is missing — raised while building the
parameter tuple, before the insert), append the movie-level row, then run
the song-commentary loop. -/
def insertBlock (mid : Nat) (ctype : Option String)
    (mapping : List (String × Nat)) (lang : String)
    (block : List (String × String)) (db : DB) : Except (LoadErr × DB) DB :=
  match block with
  | [] => .error (.indexErr, db)
  | (_, v) :: _ =>
    match ctype with
    | none => .error (.keyErr "commentary_type", db)
    | some ct =>
      .ok (insertSongComms mid ct lang block mapping (appendComm db mid none ct lang v))

/-- The per-language loop over `data['commentaries'].items()` (line 82). -/
def insertBlocks (mid : Nat) (ctype : Option String)
    (mapping : List (String × Nat))
    (blocks : List (String × List (String × String))) (db : DB) :
    Except (LoadErr × DB) DB :=
  match blocks with
  | [] => .ok db
  | (lang, block) :: rest =>
    match insertBlock mid ctype mapping lang block db with
    | .error e => .error e
    | .ok db1 => insertBlocks mid ctype mapping rest db1

/-- The body of `load_yaml_file` up to (but excluding) `conn.commit()`:
all table writes for one document, in source order, with every mapping
access that can raise modelled at its place (including the
`data['commentary_type']` read in the line-100 print).  On an exception the
partial state is carried in the error, as the open transaction retains the
writes already executed. -/
def loadDoc (d : RawDoc) (db : DB) : Except (LoadErr × DB) DB :=
  match d.metadata with
  | none => .error (.keyErr "metadata", db)
  | some meta =>
  match resolveMovieMeta meta db with
  | .error e => .error e
  | .ok (db1, mid) =>
  match meta.cast with
  | none => .error (.keyErr "cast", db1)
  | some names =>
  match resolveCastStep mid names db1 with
  | .error e => .error e
  | .ok db2 =>
  match d.songs_order with
  | none => .error (.keyErr "songs_order", db2)
  | some sorder =>
  let p := resolveSongsStep mid sorder db2
  match d.commentaries with
  | none => .error (.keyErr "commentaries", p.1)
  | some blocks =>
  match insertBlocks mid d.commentary_type p.2 blocks p.1 with
  | .error e => .error e
  | .ok db4 =>
  match d.commentary_type with
  | none => .error (.keyErr "commentary_type", db4)
  | some _ => .ok db4

/-- `load_yaml_file(filepath, conn)`: run the document's writes in the open
transaction and `conn.commit()` on success; on an exception the error
propagates and the connection keeps the uncommitted partial writes (the
function never rolls back). -/
def load_yaml_file (d : RawDoc) (conn : Conn) : Conn × Option LoadErr :=
  match loadDoc d conn.current with
  | .ok db1 => (⟨db1, db1⟩, none)
  | .error (e, db1) => ({ conn with current := db1 }, some e)

/-- The batch loop of `main` (lines 119–123): each document is loaded inside
`try`, any exception is caught, recorded and printed, and the loop continues
with the next file on the same connection; there is no rollback.  Returns
the final connection and one outcome per document. -/
def runBatch (docs : List RawDoc) (conn : Conn) : Conn × List (Option LoadErr) :=
  match docs with
  | [] => (conn, [])
  | d :: rest =>
    let p := load_yaml_file d conn
    let q := runBatch rest p.1
    (q.1, p.2 :: q.2)

/-- Modelled from the spec: a connectivity failure ("the relational store is
unreachable or the session is invalid") is an environment event, not a
function of the document.  Once `psycopg2.OperationalError` has been raised,
the connection is invalid — psycopg2 closes it or leaves the transaction
aborted — and since `main` never rolls back or reconnects, every later
statement on the same connection raises `OperationalError` again.  `broken`
records this invalidated-session state. -/
structure ConnF where
  conn : Conn
  broken : Bool
deriving DecidableEq, Repr

/-- A document attempt under the fault model: on an invalid session every
statement raises `OperationalError`; `fault = true` models the store
becoming unreachable when the document's first statement executes, which
raises before any write applies and invalidates the session; otherwise the
attempt runs exactly as `load_yaml_file`. -/
def load_yaml_fileF (fault : Bool) (d : RawDoc) (c : ConnF) :
    ConnF × Option LoadErr :=
  if c.broken then (c, some .connectivity)
  else if fault then ({ c with broken := true }, some .connectivity)
  else
    let p := load_yaml_file d c.conn
    (⟨p.1, false⟩, p.2)

/-- The batch loop of `main` under a fault schedule: `OperationalError` is a
subclass of `Exception`, so the catch-all `except` on line 122 treats a
connectivity error like any other per-document failure and the loop
continues with the next file on the same (now invalid) connection. -/
def runBatchF (docs : List (RawDoc × Bool)) (c : ConnF) :
    ConnF × List (Option LoadErr) :=
  match docs with
  | [] => (c, [])
  | (d, f) :: rest =>
    let p := load_yaml_fileF f d c
    let q := runBatchF rest p.1
    (q.1, p.2 :: q.2)

/-- The metadata fields the movie-insert step reads are all present and the
release date parses. -/
def metaOK (meta : RawMeta) : Bool :=
  (match meta.release_date with
   | none => false
   | some rds => (parseDate rds).isSome) &&
  meta.movie_name.isSome && meta.director.isSome && meta.producer.isSome &&
  meta.music_director.isSome && meta.lyricist.isSome

/-- Structural well-formedness of a document: every mapping key the loader
reads is present, the release date parses, and every per-language commentary
block is non-empty.  (These are exactly the conditions under which
`loadDoc` can run to completion; the store's content never decides
success.) -/
def wellFormed (d : RawDoc) : Bool :=
  match d.metadata with
  | none => false
  | some meta =>
    metaOK meta && meta.cast.isSome &&
    d.songs_order.isSome && d.commentary_type.isSome &&
    (match d.commentaries with
     | none => false
     | some blocks => blocks.all (fun b => !b.2.isEmpty))

/-- Uniqueness of the `movies.movie_name` natural key, as the store's unique
constraint enforces it. -/
def MoviesUniq (db : DB) : Prop :=
  db.movies.Pairwise (fun a b => a.movie_name ≠ b.movie_name)

/-- Uniqueness of the `cast_members.cast_name` natural key. -/
def CastUniq (db : DB) : Prop :=
  db.castMembers.Pairwise (fun a b => a.cast_name ≠ b.cast_name)

/-- Uniqueness of the `(movie_id, song_name)` natural key of `songs`. -/
def SongKeyUniq (db : DB) : Prop :=
  db.songs.Pairwise (fun a b => ¬(a.movie_id = b.movie_id ∧ a.song_name = b.song_name))

/-- Uniqueness of `movie_cast` association pairs. -/
def MovieCastUniq (db : DB) : Prop :=
  db.movieCast.Pairwise (fun a b => a ≠ b)

/-- Referential integrity: every song references a movie; every commentary
references a movie, and when it carries a song reference, a song of the same
movie; every association references a movie and a cast member. -/
def RefOK (db : DB) : Prop :=
  (∀ s ∈ db.songs, ∃ m ∈ db.movies, m.movie_id = s.movie_id) ∧
  (∀ c ∈ db.commentaries,
      (∃ m ∈ db.movies, m.movie_id = c.movie_id) ∧
      (∀ sid ∈ c.song_id.toList,
        ∃ s ∈ db.songs, s.song_id = sid ∧ s.movie_id = c.movie_id)) ∧
  (∀ p ∈ db.movieCast,
      (∃ m ∈ db.movies, m.movie_id = p.1) ∧
      (∃ cm ∈ db.castMembers, cm.cast_id = p.2))

instance (db : DB) : Decidable (MoviesUniq db) := by
  unfold MoviesUniq; infer_instance

instance (db : DB) : Decidable (CastUniq db) := by
  unfold CastUniq; infer_instance

instance (db : DB) : Decidable (SongKeyUniq db) := by
  unfold SongKeyUniq; infer_instance

instance (db : DB) : Decidable (MovieCastUniq db) := by
  unfold MovieCastUniq; infer_instance

instance (db : DB) : Decidable (RefOK db) := by
  unfold RefOK; infer_instance

/-- Number of `movies` rows carrying a given name. -/
def countMoviesByName (db : DB) (nm : String) : Nat :=
  db.movies.countP (fun r => r.movie_name == nm)

/-- Number of `cast_members` rows carrying a given name. -/
def countCastByName (db : DB) (n : String) : Nat :=
  db.castMembers.countP (fun r => r.cast_name == n)

/-- Number of `movie_cast` rows for a given (movie, cast) pair. -/
def countAssoc (db : DB) (mid cid : Nat) : Nat :=
  db.movieCast.countP (fun p => p.1 == mid && p.2 == cid)

/-- The `songs` rows keyed by a given (movie, song name) pair. -/
def songsByKey (db : DB) (m : Nat) (n : String) : List SongRow :=
  db.songs.filter (fun s => s.movie_id == m && s.song_name == n)

/-- A complete, well-formed document (the spec's end-to-end scenario). -/
def goodDoc : RawDoc :=
  { metadata := some
      { movie_name := some "Aan Milo Sajna"
        release_date := some "12 October 1970"
        director := some "Mukul Dutt"
        producer := some "J. Om Prakash"
        music_director := some "Laxmikant-Pyarelal"
        lyricist := some "Anand Bakshi"
        cast := some ["Rajesh Khanna", "Mala Sinha"] }
    songs_order := some ["Achha To Hum Chalte Hain", "Jo Tumko Ho Pasand"]
    commentary_type := some "long"
    commentaries := some
      [("Hindi",
        [("Aan Milo Sajna", "movie text"),
         ("Achha To Hum Chalte Hain", "song text")])] }

/-- The store state reached by ingesting `goodDoc` on a fresh connection
(the spec's end-to-end scenario outcome). -/
def goodDocDB : DB :=
  { movies := [⟨0, "Aan Milo Sajna", ⟨12, 10, 1970⟩, "Mukul Dutt",
      "J. Om Prakash", "Laxmikant-Pyarelal", "Anand Bakshi"⟩]
    castMembers := [⟨0, "Rajesh Khanna"⟩, ⟨1, "Mala Sinha"⟩]
    movieCast := [(0, 0), (0, 1)]
    songs := [⟨0, 0, "Achha To Hum Chalte Hain", 1⟩,
      ⟨1, 0, "Jo Tumko Ho Pasand", 2⟩]
    commentaries := [⟨0, none, "long", "Hindi", "movie text"⟩,
      ⟨0, some 0, "long", "Hindi", "song text"⟩]
    nextMovieId := 1
    nextCastId := 2
    nextSongId := 2 }

/-- A second well-formed document, sharing the cast member
"Rajesh Khanna" with `goodDoc` but naming a different movie. -/
def goodDoc2 : RawDoc :=
  { metadata := some
      { movie_name := some "Anand"
        release_date := some "12 March 1971"
        director := some "Hrishikesh Mukherjee"
        producer := some "Hrishikesh Mukherjee"
        music_director := some "Salil Chowdhury"
        lyricist := some "Gulzar"
        cast := some ["Rajesh Khanna", "Amitabh Bachchan"] }
    songs_order := some ["Kahin Door Jab Din", "Zindagi Kaisi Hai Paheli"]
    commentary_type := some "long"
    commentaries := some
      [("Hindi", [("Anand", "anand movie text")])] }

/-- A document naming the same movie as `goodDoc` but carrying different
attribute values throughout. -/
def goodDocAlt : RawDoc :=
  { metadata := some
      { movie_name := some "Aan Milo Sajna"
        release_date := some "1 January 1999"
        director := some "Other Director"
        producer := some "Other Producer"
        music_director := some "Other MD"
        lyricist := some "Other Lyricist"
        cast := some ["Other Actor"] }
    songs_order := some ["Other Song"]
    commentary_type := some "short"
    commentaries := some [("English", [("Aan Milo Sajna", "other text")])] }

/-- A document that fails mid-ingestion: `commentary_type` is missing, so a
`KeyError` is raised at the first commentary insert, after the movie, cast
and song writes have already executed in the open transaction. -/
def badDoc : RawDoc :=
  { metadata := some
      { movie_name := some "Bad Movie"
        release_date := some "1 January 1980"
        director := some "D"
        producer := some "P"
        music_director := some "M"
        lyricist := some "L"
        cast := some ["Solo Actor"] }
    songs_order := some ["Only Song"]
    commentary_type := none
    commentaries := some [("Hindi", [("Bad Movie", "text")])] }

/-- A document whose only per-language commentary block is the empty
mapping. -/
def emptyBlockDoc : RawDoc :=
  { metadata := some
      { movie_name := some "Empty Block Movie"
        release_date := some "2 February 1982"
        director := some "D"
        producer := some "P"
        music_director := some "M"
        lyricist := some "L"
        cast := some ["Some Actor"] }
    songs_order := some ["Some Song"]
    commentary_type := some "short"
    commentaries := some [("Hindi", [])] }

/-- A document on which the first key of the (only) commentary block is a
song name rather than the movie name: the block lists the song entry first
and the movie-level entry second. -/
def songFirstDoc : RawDoc :=
  { metadata := some
      { movie_name := some "M"
        release_date := some "3 March 1983"
        director := some "D"
        producer := some "P"
        music_director := some "MD"
        lyricist := some "L"
        cast := some ["A"] }
    songs_order := some ["S"]
    commentary_type := some "long"
    commentaries := some [("Hindi", [("S", "ts"), ("M", "tm")])] }

/-- The state carried by a step's result, on both the success and the
exception path (an exception leaves its partial writes in the transaction). -/
def OutDB (r : Except (LoadErr × DB) DB) : DB :=
  match r with
  | .ok db => db
  | .error (_, db) => db

/-! ### Helper lemmas about the primitive store operations -/

theorem find?_append_some {α : Type} {p : α → Bool} {l₁ : List α}
    (l₂ : List α) {a : α} (h : l₁.find? p = some a) :
    (l₁ ++ l₂).find? p = some a := by
  rw [List.find?_append, h]; rfl

theorem selectCastIdByName_isSome_of_mem {db : DB} {n : String}
    (h : ∃ r ∈ db.castMembers, r.cast_name = n) :
    ∃ cid, selectCastIdByName db n = some cid := by
  obtain ⟨r, hr, he⟩ := h
  have hs : (db.castMembers.find? (fun r => r.cast_name == n)).isSome := by
    rw [List.find?_isSome]
    exact ⟨r, hr, by simp [he]⟩
  obtain ⟨a, ha⟩ := Option.isSome_iff_exists.mp hs
  exact ⟨a.cast_id, by simp [selectCastIdByName, ha]⟩

theorem insertCastCond_mem (db : DB) (n : String) :
    ∃ r ∈ (insertCastCond db n).castMembers, r.cast_name = n := by
  unfold insertCastCond
  by_cases h : db.castMembers.any (fun r => r.cast_name == n)
  · simp only [h, if_true]
    obtain ⟨r, hr, he⟩ := List.any_eq_true.mp h
    exact ⟨r, hr, by simpa using he⟩
  · simp only [h]
    refine ⟨⟨db.nextCastId, n⟩, ?_, rfl⟩
    simp

theorem insertCastCond_suffix (db : DB) (n : String) :
    ∃ tail, (insertCastCond db n).castMembers = db.castMembers ++ tail := by
  unfold insertCastCond
  by_cases h : db.castMembers.any (fun r => r.cast_name == n)
  · exact ⟨[], by simp [h]⟩
  · exact ⟨[⟨db.nextCastId, n⟩], by simp [h]⟩

theorem insertCastCond_frame (db : DB) (n : String) :
    (insertCastCond db n).movies = db.movies ∧
    (insertCastCond db n).movieCast = db.movieCast ∧
    (insertCastCond db n).songs = db.songs ∧
    (insertCastCond db n).commentaries = db.commentaries ∧
    (insertCastCond db n).nextMovieId = db.nextMovieId ∧
    (insertCastCond db n).nextSongId = db.nextSongId := by
  unfold insertCastCond
  by_cases h : db.castMembers.any (fun r => r.cast_name == n) <;> simp [h]

theorem insertCastCond_count (db : DB) (n m : String) :
    countCastByName (insertCastCond db n) m =
      (if n = m ∧ countCastByName db m = 0 then 1 else countCastByName db m) := by
  unfold insertCastCond countCastByName
  by_cases h : db.castMembers.any (fun r => r.cast_name == n)
  · rw [if_pos h]
    obtain ⟨r, hr, he⟩ := List.any_eq_true.mp h
    have hne : ¬(n = m ∧ List.countP (fun r => r.cast_name == m) db.castMembers = 0) := by
      rintro ⟨rfl, hz⟩
      exact (List.countP_eq_zero.mp hz r hr) he
    rw [if_neg hne]
  · rw [if_neg h]
    have hz : List.countP (fun r => r.cast_name == n) db.castMembers = 0 := by
      rw [List.countP_eq_zero]
      intro a ha hc
      exact h (List.any_eq_true.mpr ⟨a, ha, hc⟩)
    by_cases hnm : n = m
    · subst hnm
      rw [if_pos ⟨rfl, hz⟩, List.countP_append, hz]
      simp
    · have hb : (((⟨db.nextCastId, n⟩ : CastRow).cast_name == m)) = false := by
        simp [hnm]
      have hne : ¬(n = m ∧ List.countP (fun r => r.cast_name == m) db.castMembers = 0) :=
        fun hc => hnm hc.1
      rw [if_neg hne, List.countP_append]
      simp [List.countP_cons, hb]

/-! ### Movie resolution lemmas -/

theorem selectMovieIdByName_mem {db : DB} {nm : String} {mid : Nat}
    (h : selectMovieIdByName db nm = some mid) :
    ∃ r ∈ db.movies, r.movie_name = nm ∧ r.movie_id = mid := by
  unfold selectMovieIdByName at h
  cases hf : db.movies.find? (fun r => r.movie_name == nm) with
  | none => rw [hf] at h; exact absurd h (by simp)
  | some r =>
    rw [hf] at h
    refine ⟨r, List.mem_of_find?_eq_some hf, ?_, ?_⟩
    · have := List.find?_some hf
      simpa using this
    · simpa using h

theorem selectMovieIdByName_isSome_of_mem {db : DB} {nm : String}
    (h : ∃ r ∈ db.movies, r.movie_name = nm) :
    ∃ mid, selectMovieIdByName db nm = some mid := by
  obtain ⟨r, hr, he⟩ := h
  have hs : (db.movies.find? (fun r => r.movie_name == nm)).isSome := by
    rw [List.find?_isSome]
    exact ⟨r, hr, by simp [he]⟩
  obtain ⟨a, ha⟩ := Option.isSome_iff_exists.mp hs
  exact ⟨a.movie_id, by simp [selectMovieIdByName, ha]⟩

/-- The conditional movie insert is a no-op when the name exists. -/
theorem insertMovieCond_conflict {db : DB} {nm : String} {rd : Date}
    {di pr mu ly : String}
    (hex : db.movies.any (fun r => r.movie_name == nm) = true) :
    insertMovieCond db nm rd di pr mu ly = (db, none) := by
  unfold insertMovieCond
  rw [if_pos hex]

/-- The conditional movie insert appends one fresh row when the name is
absent. -/
theorem insertMovieCond_new {db : DB} {nm : String} {rd : Date}
    {di pr mu ly : String}
    (hex : ¬ db.movies.any (fun r => r.movie_name == nm) = true) :
    insertMovieCond db nm rd di pr mu ly =
      ({ db with
          movies := db.movies ++ [⟨db.nextMovieId, nm, rd, di, pr, mu, ly⟩],
          nextMovieId := db.nextMovieId + 1 },
        some db.nextMovieId) := by
  unfold insertMovieCond
  rw [if_neg hex]

/-- Success/shape and effects of the movie-resolution step: it can fail only
for structural reasons (`metaOK`); it touches only the `movies` table and
its sequence, and either inserts one fresh row (name absent) or leaves the
store unchanged and recovers the identity by the natural-key lookup. -/
theorem resolveMovieMeta_spec (meta : RawMeta) (db : DB) (nm : String)
    (h : metaOK meta = true) (hnm : meta.movie_name = some nm) :
    ∃ db1 mid, resolveMovieMeta meta db = .ok (db1, mid) ∧
      db1.castMembers = db.castMembers ∧ db1.movieCast = db.movieCast ∧
      db1.songs = db.songs ∧ db1.commentaries = db.commentaries ∧
      db1.nextCastId = db.nextCastId ∧ db1.nextSongId = db.nextSongId ∧
      (((∀ r ∈ db.movies, r.movie_name ≠ nm) ∧
        (∃ row : MovieRow, row.movie_id = db.nextMovieId ∧ row.movie_name = nm ∧
          db1.movies = db.movies ++ [row]) ∧
        mid = db.nextMovieId ∧ db1.nextMovieId = db.nextMovieId + 1) ∨
       (db1.movies = db.movies ∧ db1.nextMovieId = db.nextMovieId ∧
        selectMovieIdByName db nm = some mid)) := by
  unfold metaOK at h
  cases hrd : meta.release_date with
  | none => simp only [hrd] at h; simp at h
  | some rds =>
  simp only [hrd] at h
  cases hpd : parseDate rds with
  | none => simp only [hpd] at h; simp at h
  | some rd =>
  simp only [hpd] at h
  cases hdi : meta.director with
  | none => simp only [hdi] at h; simp at h
  | some di =>
  cases hpr : meta.producer with
  | none => simp only [hpr] at h; simp at h
  | some pr =>
  cases hmu : meta.music_director with
  | none => simp only [hmu] at h; simp at h
  | some mu =>
  cases hly : meta.lyricist with
  | none => simp only [hly] at h; simp at h
  | some ly =>
  by_cases hex : db.movies.any (fun r => r.movie_name == nm) = true
  · obtain ⟨r, hr, he⟩ := List.any_eq_true.mp hex
    obtain ⟨mid, hsel⟩ := selectMovieIdByName_isSome_of_mem ⟨r, hr, by simpa using he⟩
    refine ⟨db, mid, ?_, rfl, rfl, rfl, rfl, rfl, rfl, Or.inr ⟨rfl, rfl, hsel⟩⟩
    unfold resolveMovieMeta
    simp only [hrd, hpd, hnm, hdi, hpr, hmu, hly,
      insertMovieCond_conflict hex, hsel]
  · refine ⟨{ db with
        movies := db.movies ++ [⟨db.nextMovieId, nm, rd, di, pr, mu, ly⟩],
        nextMovieId := db.nextMovieId + 1 },
      db.nextMovieId, ?_, rfl, rfl, rfl, rfl, rfl, rfl, Or.inl
        ⟨?_, ⟨⟨db.nextMovieId, nm, rd, di, pr, mu, ly⟩, rfl, rfl, rfl⟩, rfl, rfl⟩⟩
    · unfold resolveMovieMeta
      simp only [hrd, hpd, hnm, hdi, hpr, hmu, hly, insertMovieCond_new hex]
    · intro r hr he
      exact hex (List.any_eq_true.mpr ⟨r, hr, by simp [he]⟩)

/-- An exception inside the movie-resolution step leaves the store
untouched. -/
theorem resolveMovieMeta_error {meta : RawMeta} {db : DB} {e : LoadErr} {dbE : DB}
    (h : resolveMovieMeta meta db = .error (e, dbE)) : dbE = db := by
  unfold resolveMovieMeta at h
  cases hrd : meta.release_date with
  | none => simp only [hrd] at h; cases h; rfl
  | some rds =>
  simp only [hrd] at h
  cases hpd : parseDate rds with
  | none => simp only [hpd] at h; cases h; rfl
  | some rd =>
  simp only [hpd] at h
  cases hnm : meta.movie_name with
  | none => simp only [hnm] at h; cases h; rfl
  | some nm =>
  simp only [hnm] at h
  cases hdi : meta.director with
  | none => simp only [hdi] at h; cases h; rfl
  | some di =>
  simp only [hdi] at h
  cases hpr : meta.producer with
  | none => simp only [hpr] at h; cases h; rfl
  | some pr =>
  simp only [hpr] at h
  cases hmu : meta.music_director with
  | none => simp only [hmu] at h; cases h; rfl
  | some mu =>
  simp only [hmu] at h
  cases hly : meta.lyricist with
  | none => simp only [hly] at h; cases h; rfl
  | some ly =>
  simp only [hly] at h
  by_cases hex : db.movies.any (fun r => r.movie_name == nm) = true
  · obtain ⟨r, hr, he⟩ := List.any_eq_true.mp hex
    obtain ⟨mid, hsel⟩ := selectMovieIdByName_isSome_of_mem ⟨r, hr, by simpa using he⟩
    simp only [insertMovieCond_conflict hex, hsel] at h
    exact Except.noConfusion h
  · simp only [insertMovieCond_new hex] at h
    exact Except.noConfusion h

/-- Success of the movie step never depends on the store: a failure means
`metaOK` is false. -/
theorem resolveMovieMeta_ok_of_metaOK {meta : RawMeta} (db : DB)
    (h : metaOK meta = true) :
    ∃ p, resolveMovieMeta meta db = .ok p := by
  cases hnm : meta.movie_name with
  | none =>
    exfalso
    unfold metaOK at h
    rw [hnm] at h
    simp at h
  | some nm =>
    obtain ⟨db1, mid, hok, _⟩ := resolveMovieMeta_spec meta db nm h hnm
    exact ⟨(db1, mid), hok⟩

/-- Conversely, a successful movie step forces `metaOK`. -/
theorem metaOK_of_resolveMovieMeta_ok {meta : RawMeta} {db : DB}
    {p : DB × Nat} (h : resolveMovieMeta meta db = .ok p) :
    metaOK meta = true := by
  unfold resolveMovieMeta at h
  unfold metaOK
  cases hrd : meta.release_date with
  | none => simp only [hrd] at h; exact Except.noConfusion h
  | some rds =>
  simp only [hrd] at h
  cases hpd : parseDate rds with
  | none => simp only [hpd] at h; exact Except.noConfusion h
  | some rd =>
  simp only [hpd] at h
  cases hnm : meta.movie_name with
  | none => simp only [hnm] at h; exact Except.noConfusion h
  | some nm =>
  simp only [hnm] at h
  cases hdi : meta.director with
  | none => simp only [hdi] at h; exact Except.noConfusion h
  | some di =>
  simp only [hdi] at h
  cases hpr : meta.producer with
  | none => simp only [hpr] at h; exact Except.noConfusion h
  | some pr =>
  simp only [hpr] at h
  cases hmu : meta.music_director with
  | none => simp only [hmu] at h; exact Except.noConfusion h
  | some mu =>
  simp only [hmu] at h
  cases hly : meta.lyricist with
  | none => simp only [hly] at h; exact Except.noConfusion h
  | some ly =>
  simp [hrd, hpd, hnm, hdi, hpr, hmu, hly]

/-! ### Cast step lemmas -/

theorem insertCastCond_uniq {db : DB} (n : String) (h : CastUniq db) :
    CastUniq (insertCastCond db n) := by
  unfold CastUniq at h ⊢
  unfold insertCastCond
  by_cases hc : db.castMembers.any (fun r => r.cast_name == n) = true
  · rw [if_pos hc]; exact h
  · rw [if_neg hc]
    rw [List.pairwise_append]
    refine ⟨h, by simp, ?_⟩
    intro a ha b hb
    have hbv : b = ⟨db.nextCastId, n⟩ := by simpa using hb
    subst hbv
    intro he
    exact hc (List.any_eq_true.mpr ⟨a, ha, by simp [he]⟩)

theorem insertMovieCastCond_frame (db : DB) (mid cid : Nat) :
    (insertMovieCastCond db mid cid).movies = db.movies ∧
    (insertMovieCastCond db mid cid).castMembers = db.castMembers ∧
    (insertMovieCastCond db mid cid).songs = db.songs ∧
    (insertMovieCastCond db mid cid).commentaries = db.commentaries ∧
    (insertMovieCastCond db mid cid).nextMovieId = db.nextMovieId ∧
    (insertMovieCastCond db mid cid).nextCastId = db.nextCastId ∧
    (insertMovieCastCond db mid cid).nextSongId = db.nextSongId := by
  unfold insertMovieCastCond
  by_cases h : db.movieCast.any (fun p => p.1 == mid && p.2 == cid) = true
  · rw [if_pos h]; exact ⟨rfl, rfl, rfl, rfl, rfl, rfl, rfl⟩
  · rw [if_neg h]; exact ⟨rfl, rfl, rfl, rfl, rfl, rfl, rfl⟩

theorem insertMovieCastCond_suffix (db : DB) (mid cid : Nat) :
    ∃ tail, (insertMovieCastCond db mid cid).movieCast = db.movieCast ++ tail := by
  unfold insertMovieCastCond
  by_cases h : db.movieCast.any (fun p => p.1 == mid && p.2 == cid) = true
  · exact ⟨[], by rw [if_pos h]; simp⟩
  · exact ⟨[(mid, cid)], by rw [if_neg h]⟩

theorem insertMovieCastCond_mem (db : DB) (mid cid : Nat) :
    (mid, cid) ∈ (insertMovieCastCond db mid cid).movieCast := by
  unfold insertMovieCastCond
  by_cases h : db.movieCast.any (fun p => p.1 == mid && p.2 == cid) = true
  · rw [if_pos h]
    obtain ⟨p, hp, he⟩ := List.any_eq_true.mp h
    have : p = (mid, cid) := by
      simp only [Bool.and_eq_true, beq_iff_eq] at he
      exact Prod.ext he.1 he.2
    exact this ▸ hp
  · rw [if_neg h]
    simp

theorem insertMovieCastCond_mcUniq {db : DB} (mid cid : Nat)
    (h : MovieCastUniq db) : MovieCastUniq (insertMovieCastCond db mid cid) := by
  unfold MovieCastUniq at h ⊢
  unfold insertMovieCastCond
  by_cases hc : db.movieCast.any (fun p => p.1 == mid && p.2 == cid) = true
  · rw [if_pos hc]; exact h
  · rw [if_neg hc]
    rw [List.pairwise_append]
    refine ⟨h, by simp, ?_⟩
    intro a ha b hb
    have hbv : b = (mid, cid) := by simpa using hb
    subst hbv
    intro he
    exact hc (List.any_eq_true.mpr ⟨a, ha, by simp [he]⟩)

theorem insertOneCast_ok (mid : Nat) (db : DB) (n : String) :
    ∃ db1, insertOneCast mid db n = .ok db1 := by
  obtain ⟨cid, hc⟩ := selectCastIdByName_isSome_of_mem (insertCastCond_mem db n)
  exact ⟨insertMovieCastCond (insertCastCond db n) mid cid,
    by simp only [insertOneCast, hc]⟩

theorem insertOneCast_spec {mid : Nat} {db : DB} {n : String} {db1 : DB}
    (h : insertOneCast mid db n = .ok db1) :
    db1.movies = db.movies ∧ db1.songs = db.songs ∧
    db1.commentaries = db.commentaries ∧
    db1.nextMovieId = db.nextMovieId ∧ db1.nextSongId = db.nextSongId ∧
    (∃ t, db1.castMembers = db.castMembers ++ t) ∧
    (∃ t, db1.movieCast = db.movieCast ++ t) ∧
    (∀ m, countCastByName db1 m =
      (if n = m ∧ countCastByName db m = 0 then 1 else countCastByName db m)) ∧
    (CastUniq db → CastUniq db1) ∧
    (MovieCastUniq db → MovieCastUniq db1) ∧
    (∃ cid, selectCastIdByName db1 n = some cid ∧ (mid, cid) ∈ db1.movieCast) := by
  obtain ⟨cid, hc⟩ := selectCastIdByName_isSome_of_mem (insertCastCond_mem db n)
  simp only [insertOneCast, hc] at h
  have hdb1 : db1 = insertMovieCastCond (insertCastCond db n) mid cid := by
    cases h; rfl
  subst hdb1
  obtain ⟨f1, f2, f3, f4, f5, f6, f7⟩ :=
    insertMovieCastCond_frame (insertCastCond db n) mid cid
  obtain ⟨g1, g2, g3, g4, g5, g6⟩ := insertCastCond_frame db n
  obtain ⟨tc, htc⟩ := insertCastCond_suffix db n
  obtain ⟨tm, htm⟩ := insertMovieCastCond_suffix (insertCastCond db n) mid cid
  refine ⟨f1.trans g1, f3.trans g3, f4.trans g4, f5.trans g5, f7.trans g6,
    ⟨tc, f2.trans htc⟩, ⟨tm, by rw [htm, g2]⟩, ?_, ?_, ?_, ?_⟩
  · intro m
    have : countCastByName (insertMovieCastCond (insertCastCond db n) mid cid) m
        = countCastByName (insertCastCond db n) m := by
      unfold countCastByName; rw [f2]
    rw [this, insertCastCond_count]
  · intro hu
    have : CastUniq (insertMovieCastCond (insertCastCond db n) mid cid) := by
      unfold CastUniq; rw [f2]
      exact insertCastCond_uniq n hu
    exact this
  · intro hu
    have hu2 : MovieCastUniq (insertCastCond db n) := by
      unfold MovieCastUniq; rw [g2]; exact hu
    exact insertMovieCastCond_mcUniq mid cid hu2
  · refine ⟨cid, ?_, insertMovieCastCond_mem _ mid cid⟩
    unfold selectCastIdByName at hc ⊢
    rw [f2]; exact hc

theorem selectCastIdByName_stable {db db1 : DB} {n : String} {cid : Nat}
    (hsuf : ∃ t, db1.castMembers = db.castMembers ++ t)
    (h : selectCastIdByName db n = some cid) :
    selectCastIdByName db1 n = some cid := by
  obtain ⟨t, ht⟩ := hsuf
  unfold selectCastIdByName at h ⊢
  rw [ht]
  cases hf : db.castMembers.find? (fun r => r.cast_name == n) with
  | none => rw [hf] at h; exact absurd h (by simp)
  | some a =>
    rw [hf] at h
    rw [find?_append_some t hf]
    exact h

/-- Aggregate behaviour of the cast loop: it always succeeds, touches only
the cast and association tables (append-only), establishes one cast row per
listed name, preserves the uniqueness constraints, and leaves each listed
name resolvable to an identity associated with the movie. -/
theorem resolveCastStep_spec (mid : Nat) (names : List String) (db : DB) :
    ∃ db1, resolveCastStep mid names db = .ok db1 ∧
      db1.movies = db.movies ∧ db1.songs = db.songs ∧
      db1.commentaries = db.commentaries ∧
      db1.nextMovieId = db.nextMovieId ∧ db1.nextSongId = db.nextSongId ∧
      (∃ t, db1.castMembers = db.castMembers ++ t) ∧
      (∃ t, db1.movieCast = db.movieCast ++ t) ∧
      (∀ m, countCastByName db1 m =
        (if m ∈ names ∧ countCastByName db m = 0 then 1
         else countCastByName db m)) ∧
      (CastUniq db → CastUniq db1) ∧
      (MovieCastUniq db → MovieCastUniq db1) ∧
      (∀ n ∈ names, ∃ cid,
        selectCastIdByName db1 n = some cid ∧ (mid, cid) ∈ db1.movieCast) := by
  induction names generalizing db with
  | nil =>
    refine ⟨db, rfl, rfl, rfl, rfl, rfl, rfl, ⟨[], by simp⟩, ⟨[], by simp⟩,
      ?_, fun h => h, fun h => h, by simp⟩
    intro m
    simp
  | cons n rest ih =>
    obtain ⟨dbm, hm⟩ := insertOneCast_ok mid db n
    obtain ⟨m1, m2, m3, m4, m5, ⟨tc, htc⟩, ⟨tm, htm⟩, hcount1, huc1, hum1, cid0, hsel0, hmem0⟩ :=
      insertOneCast_spec hm
    obtain ⟨db1, hrec, r1, r2, r3, r4, r5, ⟨tc2, htc2⟩, ⟨tm2, htm2⟩, hcount2, huc2, hum2, hmem2⟩ :=
      ih dbm
    refine ⟨db1, ?_, r1.trans m1, r2.trans m2, r3.trans m3,
      r4.trans m4, r5.trans m5,
      ⟨tc ++ tc2, by rw [htc2, htc, List.append_assoc]⟩,
      ⟨tm ++ tm2, by rw [htm2, htm, List.append_assoc]⟩, ?_, ?_, ?_, ?_⟩
    · unfold resolveCastStep
      rw [hm]
      exact hrec
    · intro m
      rw [hcount2 m, hcount1 m]
      by_cases hn : n = m
      · subst hn
        by_cases h0 : countCastByName db n = 0
        · simp [h0]
        · simp [h0]
      · have hn2 : ¬ m = n := fun e => hn e.symm
        simp [hn, hn2, List.mem_cons]
    · intro hu
      exact huc2 (huc1 hu)
    · intro hu
      exact hum2 (hum1 hu)
    · intro n2 hn2
      rcases List.mem_cons.mp hn2 with he | he
      · subst he
        refine ⟨cid0, selectCastIdByName_stable ⟨tc2, htc2⟩ hsel0, ?_⟩
        rw [htm2]
        exact List.mem_append_left _ hmem0
      · exact hmem2 n2 he

/-! ### Song step lemmas -/

theorem filter_map_pres {α : Type} (f : α → α) (p : α → Bool)
    (hf : ∀ a, p (f a) = p a) (l : List α) :
    (l.map f).filter p = (l.filter p).map f := by
  induction l with
  | nil => rfl
  | cons a t ih =>
    simp only [List.map_cons, List.filter_cons, hf a]
    by_cases h : p a = true
    · rw [if_pos h, if_pos h, List.map_cons, ih]
    · rw [if_neg h, if_neg h, ih]

theorem songUpdate_pres_key (m : Nat) (n : String) (ord : Nat)
    (m2 : Nat) (n2 : String) (a : SongRow) :
    ((if a.movie_id == m && a.song_name == n then
        { a with song_order := ord } else a).movie_id == m2 &&
      (if a.movie_id == m && a.song_name == n then
        { a with song_order := ord } else a).song_name == n2) =
    (a.movie_id == m2 && a.song_name == n2) := by
  by_cases h : (a.movie_id == m && a.song_name == n) = true
  · rw [if_pos h]
  · rw [if_neg h]

theorem songs_filter_map_update_same (l : List SongRow) (m : Nat) (n : String)
    (ord : Nat) :
    (l.map (fun r => if r.movie_id == m && r.song_name == n then
        { r with song_order := ord } else r)).filter
      (fun s => s.movie_id == m && s.song_name == n) =
    (l.filter (fun s => s.movie_id == m && s.song_name == n)).map
      (fun r => { r with song_order := ord }) := by
  rw [filter_map_pres _ _ (songUpdate_pres_key m n ord m n)]
  refine List.map_congr_left ?_
  intro a ha
  rw [if_pos (List.of_mem_filter ha)]

theorem songs_filter_map_update_other (l : List SongRow) (m : Nat) (n : String)
    (ord : Nat) (m2 : Nat) (n2 : String) (hne : ¬(m2 = m ∧ n2 = n)) :
    (l.map (fun r => if r.movie_id == m && r.song_name == n then
        { r with song_order := ord } else r)).filter
      (fun s => s.movie_id == m2 && s.song_name == n2) =
    l.filter (fun s => s.movie_id == m2 && s.song_name == n2) := by
  rw [filter_map_pres _ _ (songUpdate_pres_key m n ord m2 n2)]
  have : ∀ a ∈ l.filter (fun s => s.movie_id == m2 && s.song_name == n2),
      (if a.movie_id == m && a.song_name == n then
        ({ a with song_order := ord } : SongRow) else a) = id a := by
    intro a ha
    have h2 : a.movie_id = m2 ∧ a.song_name = n2 := by
      simpa using List.of_mem_filter ha
    have hno : ¬(a.movie_id == m && a.song_name == n) = true := by
      intro hc
      have h3 : a.movie_id = m ∧ a.song_name = n := by simpa using hc
      exact hne ⟨h2.1.symm.trans h3.1, h2.2.symm.trans h3.2⟩
    rw [if_neg hno]
    rfl
  rw [List.map_congr_left this, List.map_id]

theorem upsertSong_frame (db : DB) (m : Nat) (n : String) (ord : Nat) :
    (upsertSong db m n ord).1.movies = db.movies ∧
    (upsertSong db m n ord).1.castMembers = db.castMembers ∧
    (upsertSong db m n ord).1.movieCast = db.movieCast ∧
    (upsertSong db m n ord).1.commentaries = db.commentaries ∧
    (upsertSong db m n ord).1.nextMovieId = db.nextMovieId ∧
    (upsertSong db m n ord).1.nextCastId = db.nextCastId := by
  unfold upsertSong
  cases hf : db.songs.find? (fun s => s.movie_id == m && s.song_name == n) with
  | none => exact ⟨rfl, rfl, rfl, rfl, rfl, rfl⟩
  | some s0 => exact ⟨rfl, rfl, rfl, rfl, rfl, rfl⟩

theorem filter_key_of_uniq {l : List SongRow} {m : Nat} {n : String} {s0 : SongRow}
    (hU : l.Pairwise (fun a b => ¬(a.movie_id = b.movie_id ∧ a.song_name = b.song_name)))
    (hf : l.find? (fun s => s.movie_id == m && s.song_name == n) = some s0) :
    l.filter (fun s => s.movie_id == m && s.song_name == n) = [s0] := by
  induction l with
  | nil => exact absurd hf (by simp)
  | cons a t ih =>
    rw [List.pairwise_cons] at hU
    by_cases ha : (a.movie_id == m && a.song_name == n) = true
    · have hs0 : s0 = a := by
        rw [List.find?_cons_of_pos t ha] at hf
        exact (Option.some_inj.mp hf).symm
      subst hs0
      rw [List.filter_cons_of_pos (p := fun (s : SongRow) => s.movie_id == m && s.song_name == n) ha]
      have hak : s0.movie_id = m ∧ s0.song_name = n := by simpa using ha
      have ht : t.filter (fun s => s.movie_id == m && s.song_name == n) = [] := by
        rw [List.filter_eq_nil_iff]
        intro b hb hc
        have hbk : b.movie_id = m ∧ b.song_name = n := by simpa using hc
        exact hU.1 b hb ⟨hak.1.trans hbk.1.symm, hak.2.trans hbk.2.symm⟩
      rw [ht]
    · rw [List.find?_cons_of_neg t ha] at hf
      rw [List.filter_cons_of_neg (p := fun (s : SongRow) => s.movie_id == m && s.song_name == n) ha]
      exact ih hU.2 hf

theorem upsertSong_key (db : DB) (m : Nat) (n : String) (ord : Nat)
    (hU : SongKeyUniq db) :
    songsByKey (upsertSong db m n ord).1 m n =
      [⟨(upsertSong db m n ord).2, m, n, ord⟩] := by
  unfold SongKeyUniq at hU
  unfold upsertSong songsByKey
  cases hf : db.songs.find? (fun s => s.movie_id == m && s.song_name == n) with
  | none =>
    have hnil : db.songs.filter (fun s => s.movie_id == m && s.song_name == n) = [] := by
      rw [List.filter_eq_nil_iff]
      intro b hb
      exact fun hc => (List.find?_eq_none.mp hf b hb) hc
    simp [List.filter_append, hnil]
  | some s0 =>
    have hak : s0.movie_id = m ∧ s0.song_name = n := by
      simpa using List.find?_some hf
    simp only
    rw [songs_filter_map_update_same, filter_key_of_uniq hU hf]
    simp only [List.map_cons, List.map_nil]
    have : ({ s0 with song_order := ord } : SongRow) =
        ⟨s0.song_id, m, n, ord⟩ := by
      cases s0
      simp_all
    rw [this]

theorem upsertSong_other (db : DB) (m : Nat) (n : String) (ord : Nat)
    (m2 : Nat) (n2 : String) (hne : ¬(m2 = m ∧ n2 = n)) :
    songsByKey (upsertSong db m n ord).1 m2 n2 = songsByKey db m2 n2 := by
  unfold upsertSong songsByKey
  cases hf : db.songs.find? (fun s => s.movie_id == m && s.song_name == n) with
  | none =>
    have hnew : (((⟨db.nextSongId, m, n, ord⟩ : SongRow).movie_id == m2 &&
        (⟨db.nextSongId, m, n, ord⟩ : SongRow).song_name == n2)) = false := by
      cases hb : ((⟨db.nextSongId, m, n, ord⟩ : SongRow).movie_id == m2 &&
          (⟨db.nextSongId, m, n, ord⟩ : SongRow).song_name == n2) with
      | false => rfl
      | true =>
        exfalso
        have : m = m2 ∧ n = n2 := by simpa using hb
        exact hne ⟨this.1.symm, this.2.symm⟩
    simp [List.filter_append, hnew]
  | some s0 =>
    simp only
    rw [songs_filter_map_update_other _ _ _ _ _ _ hne]

theorem upsertSong_uniq (db : DB) (m : Nat) (n : String) (ord : Nat)
    (hU : SongKeyUniq db) : SongKeyUniq (upsertSong db m n ord).1 := by
  unfold SongKeyUniq at hU ⊢
  unfold upsertSong
  cases hf : db.songs.find? (fun s => s.movie_id == m && s.song_name == n) with
  | none =>
    simp only
    rw [List.pairwise_append]
    refine ⟨hU, by simp, ?_⟩
    intro a ha b hb
    have hbv : b = ⟨db.nextSongId, m, n, ord⟩ := by simpa using hb
    subst hbv
    intro hc
    exact (List.find?_eq_none.mp hf a ha) (by simp [hc.1, hc.2])
  | some s0 =>
    simp only
    rw [List.pairwise_map]
    refine hU.imp ?_
    intro a b hab hc
    apply hab
    by_cases ha : (a.movie_id == m && a.song_name == n) = true <;>
      by_cases hb2 : (b.movie_id == m && b.song_name == n) = true <;>
      simp only [if_pos, if_neg, ha, hb2, if_true, if_false] at hc <;>
      simpa using hc

theorem upsertSong_pres (db : DB) (m : Nat) (n : String) (ord : Nat) :
    ∀ s ∈ db.songs, ∃ s2 ∈ (upsertSong db m n ord).1.songs,
      s2.song_id = s.song_id ∧ s2.movie_id = s.movie_id ∧
      s2.song_name = s.song_name := by
  intro s hs
  unfold upsertSong
  cases hf : db.songs.find? (fun s => s.movie_id == m && s.song_name == n) with
  | none =>
    exact ⟨s, List.mem_append_left _ hs, rfl, rfl, rfl⟩
  | some s0 =>
    refine ⟨if s.movie_id == m && s.song_name == n then
      { s with song_order := ord } else s, ?_, ?_, ?_, ?_⟩
    · simp only
      exact List.mem_map_of_mem _ hs
    · by_cases hc : (s.movie_id == m && s.song_name == n) = true
      · rw [if_pos hc]
      · rw [if_neg hc]
    · by_cases hc : (s.movie_id == m && s.song_name == n) = true
      · rw [if_pos hc]
      · rw [if_neg hc]
    · by_cases hc : (s.movie_id == m && s.song_name == n) = true
      · rw [if_pos hc]
      · rw [if_neg hc]

theorem upsertSong_new (db : DB) (m : Nat) (n : String) (ord : Nat) :
    ∀ s2 ∈ (upsertSong db m n ord).1.songs,
      (∃ s ∈ db.songs, s2.song_id = s.song_id ∧ s2.movie_id = s.movie_id ∧
        s2.song_name = s.song_name) ∨ s2.movie_id = m := by
  intro s2 hs2
  unfold upsertSong at hs2
  cases hf : db.songs.find? (fun s => s.movie_id == m && s.song_name == n) with
  | none =>
    rw [hf] at hs2
    simp only at hs2
    rcases List.mem_append.mp hs2 with h | h
    · exact Or.inl ⟨s2, h, rfl, rfl, rfl⟩
    · have : s2 = ⟨db.nextSongId, m, n, ord⟩ := by simpa using h
      subst this
      exact Or.inr rfl
  | some s0 =>
    rw [hf] at hs2
    simp only at hs2
    obtain ⟨s, hs, he⟩ := List.mem_map.mp hs2
    subst he
    refine Or.inl ⟨s, hs, ?_, ?_, ?_⟩ <;>
      (by_cases hc : (s.movie_id == m && s.song_name == n) = true
       · rw [if_pos hc]
       · rw [if_neg hc])

theorem upsertSong_ret (db : DB) (m : Nat) (n : String) (ord : Nat) :
    ∃ s2 ∈ (upsertSong db m n ord).1.songs,
      s2.song_id = (upsertSong db m n ord).2 ∧ s2.movie_id = m := by
  unfold upsertSong
  cases hf : db.songs.find? (fun s => s.movie_id == m && s.song_name == n) with
  | none =>
    exact ⟨⟨db.nextSongId, m, n, ord⟩, by simp, rfl, rfl⟩
  | some s0 =>
    have hak : s0.movie_id = m ∧ s0.song_name = n := by
      simpa using List.find?_some hf
    have hk : (s0.movie_id == m && s0.song_name == n) = true := by
      simp [hak.1, hak.2]
    refine ⟨{ s0 with song_order := ord }, ?_, rfl, hak.1⟩
    simp only
    have : ({ s0 with song_order := ord } : SongRow) =
        (fun r => if r.movie_id == m && r.song_name == n then
          { r with song_order := ord } else r) s0 := by
      simp only [if_pos hk]
    rw [this]
    exact List.mem_map_of_mem _ (List.mem_of_find?_eq_some hf)

theorem insertSongsFrom_nil (m idx : Nat) (db : DB)
    (mapping : List (String × Nat)) :
    insertSongsFrom m idx [] db mapping = (db, mapping) := rfl

theorem insertSongsFrom_cons (m idx : Nat) (n : String) (rest : List String)
    (db : DB) (mapping : List (String × Nat)) :
    insertSongsFrom m idx (n :: rest) db mapping =
      insertSongsFrom m (idx + 1) rest (upsertSong db m n idx).1
        (assocUpsert mapping n (upsertSong db m n idx).2) := rfl

/-- Core correctness of the song loop: key-uniqueness is preserved, tables
other than `songs` are untouched, each listed name ends with exactly one row
carrying the ordinal of its (last) position, and keys outside the listed
names are untouched. -/
theorem insertSongsFrom_spec (m : Nat) (names : List String) :
    ∀ (idx : Nat) (db : DB) (mapping : List (String × Nat)),
      SongKeyUniq db → names.Nodup →
      SongKeyUniq (insertSongsFrom m idx names db mapping).1 ∧
      (insertSongsFrom m idx names db mapping).1.movies = db.movies ∧
      (insertSongsFrom m idx names db mapping).1.castMembers = db.castMembers ∧
      (insertSongsFrom m idx names db mapping).1.movieCast = db.movieCast ∧
      (insertSongsFrom m idx names db mapping).1.commentaries = db.commentaries ∧
      (insertSongsFrom m idx names db mapping).1.nextMovieId = db.nextMovieId ∧
      (insertSongsFrom m idx names db mapping).1.nextCastId = db.nextCastId ∧
      (∀ i (hi : i < names.length), ∃ sid,
        songsByKey (insertSongsFrom m idx names db mapping).1 m
            (names.get ⟨i, hi⟩) =
          [⟨sid, m, names.get ⟨i, hi⟩, idx + i⟩]) ∧
      (∀ (m2 : Nat) (n2 : String), ¬(m2 = m ∧ n2 ∈ names) →
        songsByKey (insertSongsFrom m idx names db mapping).1 m2 n2 =
          songsByKey db m2 n2) := by
  induction names with
  | nil =>
    intro idx db mapping hU _
    refine ⟨hU, rfl, rfl, rfl, rfl, rfl, rfl, ?_, ?_⟩
    · intro i hi
      exact absurd hi (by simp)
    · intro m2 n2 _
      rfl
  | cons n rest ih =>
    intro idx db mapping hU hnd
    have hnd2 := List.nodup_cons.mp hnd
    have hU1 : SongKeyUniq (upsertSong db m n idx).1 := upsertSong_uniq db m n idx hU
    obtain ⟨f1, f2, f3, f4, f5, f6⟩ := upsertSong_frame db m n idx
    obtain ⟨ihU, ihm, ihc, ihmc, ihcom, ihnm, ihnc, ihkey, ihother⟩ :=
      ih (idx + 1) (upsertSong db m n idx).1
        (assocUpsert mapping n (upsertSong db m n idx).2) hU1 hnd2.2
    rw [insertSongsFrom_cons]
    refine ⟨ihU, ihm.trans f1, ihc.trans f2, ihmc.trans f3, ihcom.trans f4,
      ihnm.trans f5, ihnc.trans f6, ?_, ?_⟩
    · intro i hi
      cases i with
      | zero =>
        have hno : ¬((m : Nat) = m ∧ n ∈ rest) := fun hc => hnd2.1 hc.2
        refine ⟨(upsertSong db m n idx).2, ?_⟩
        have hkey := upsertSong_key db m n idx hU
        have := ihother m n hno
        simp only [List.get]
        rw [this, hkey]
        simp
      | succ j =>
        have hj : j < rest.length := by
          simpa using hi
        obtain ⟨sid, hs⟩ := ihkey j hj
        refine ⟨sid, ?_⟩
        simp only [List.get]
        have harith : idx + 1 + j = idx + (j + 1) := by omega
        rw [← harith]
        exact hs
    · intro m2 n2 hno
      have hno1 : ¬(m2 = m ∧ n2 ∈ rest) := by
        intro hc
        exact hno ⟨hc.1, List.mem_cons_of_mem n hc.2⟩
      have hno2 : ¬(m2 = m ∧ n2 = n) := by
        intro hc
        exact hno ⟨hc.1, hc.2 ▸ List.mem_cons_self n rest⟩
      rw [ihother m2 n2 hno1, upsertSong_other db m n idx m2 n2 hno2]

theorem insertSongsFrom_pres (m : Nat) (names : List String) :
    ∀ (idx : Nat) (db : DB) (mapping : List (String × Nat)),
      ∀ s ∈ db.songs, ∃ s2 ∈ (insertSongsFrom m idx names db mapping).1.songs,
        s2.song_id = s.song_id ∧ s2.movie_id = s.movie_id ∧
        s2.song_name = s.song_name := by
  induction names with
  | nil =>
    intro idx db mapping s hs
    exact ⟨s, hs, rfl, rfl, rfl⟩
  | cons n rest ih =>
    intro idx db mapping s hs
    obtain ⟨s1, hs1, e1, e2, e3⟩ := upsertSong_pres db m n idx s hs
    obtain ⟨s2, hs2, g1, g2, g3⟩ :=
      ih (idx + 1) (upsertSong db m n idx).1
        (assocUpsert mapping n (upsertSong db m n idx).2) s1 hs1
    rw [insertSongsFrom_cons]
    exact ⟨s2, hs2, g1.trans e1, g2.trans e2, g3.trans e3⟩

theorem insertSongsFrom_new (m : Nat) (names : List String) :
    ∀ (idx : Nat) (db : DB) (mapping : List (String × Nat)),
      ∀ s2 ∈ (insertSongsFrom m idx names db mapping).1.songs,
        (∃ s ∈ db.songs, s2.song_id = s.song_id ∧ s2.movie_id = s.movie_id ∧
          s2.song_name = s.song_name) ∨ s2.movie_id = m := by
  induction names with
  | nil =>
    intro idx db mapping s2 hs2
    exact Or.inl ⟨s2, hs2, rfl, rfl, rfl⟩
  | cons n rest ih =>
    intro idx db mapping s2 hs2
    rw [insertSongsFrom_cons] at hs2
    rcases ih (idx + 1) (upsertSong db m n idx).1
        (assocUpsert mapping n (upsertSong db m n idx).2) s2 hs2 with
      ⟨s1, hs1, e1, e2, e3⟩ | hm
    · rcases upsertSong_new db m n idx s1 hs1 with ⟨s, hs, g1, g2, g3⟩ | hm1
      · exact Or.inl ⟨s, hs, e1.trans g1, e2.trans g2, e3.trans g3⟩
      · exact Or.inr (e2.trans hm1)
    · exact Or.inr hm

theorem assocUpsert_mem {l : List (String × Nat)} {k : String} {v : Nat}
    {pr : String × Nat} (h : pr ∈ assocUpsert l k v) : pr ∈ l ∨ pr = (k, v) := by
  unfold assocUpsert at h
  by_cases hc : l.any (fun p => p.1 == k) = true
  · rw [if_pos hc] at h
    obtain ⟨p, hp, he⟩ := List.mem_map.mp h
    by_cases hk : (p.1 == k) = true
    · rw [if_pos hk] at he
      exact Or.inr he.symm
    · rw [if_neg hk] at he
      exact Or.inl (he ▸ hp)
  · rw [if_neg hc] at h
    rcases List.mem_append.mp h with h2 | h2
    · exact Or.inl h2
    · exact Or.inr (by simpa using h2)

theorem insertSongsFrom_mapping (m : Nat) (names : List String) :
    ∀ (idx : Nat) (db : DB) (mapping : List (String × Nat)),
      (∀ pr ∈ mapping, ∃ s ∈ db.songs, s.song_id = pr.2 ∧ s.movie_id = m) →
      ∀ pr ∈ (insertSongsFrom m idx names db mapping).2,
        ∃ s ∈ (insertSongsFrom m idx names db mapping).1.songs,
          s.song_id = pr.2 ∧ s.movie_id = m := by
  induction names with
  | nil =>
    intro idx db mapping hmap pr hpr
    exact hmap pr hpr
  | cons n rest ih =>
    intro idx db mapping hmap pr hpr
    rw [insertSongsFrom_cons] at hpr ⊢
    refine ih (idx + 1) (upsertSong db m n idx).1
      (assocUpsert mapping n (upsertSong db m n idx).2) ?_ pr hpr
    intro pr2 hpr2
    rcases assocUpsert_mem hpr2 with h2 | h2
    · obtain ⟨s, hs, e1, e2⟩ := hmap pr2 h2
      obtain ⟨s2, hs2, g1, g2, g3⟩ := upsertSong_pres db m n idx s hs
      exact ⟨s2, hs2, g1.trans e1, g2.trans e2⟩
    · obtain ⟨s2, hs2, g1, g2⟩ := upsertSong_ret db m n idx
      subst h2
      exact ⟨s2, hs2, g1, g2⟩

/-! ### Commentary step lemmas -/

theorem insertSongComms_eq (mid : Nat) (ct lang : String)
    (block : List (String × String)) (mapping : List (String × Nat)) :
    ∀ db : DB, insertSongComms mid ct lang block mapping db =
      { db with commentaries := db.commentaries ++
          mapping.filterMap (fun p => (lookupAssoc block p.1).map
            (fun t => ⟨mid, some p.2, ct, lang, t⟩)) } := by
  induction mapping with
  | nil =>
    intro db
    simp [insertSongComms]
  | cons pr rest ih =>
    intro db
    obtain ⟨sn, sid⟩ := pr
    cases hl : lookupAssoc block sn with
    | none =>
      have step : insertSongComms mid ct lang block ((sn, sid) :: rest) db =
          insertSongComms mid ct lang block rest db := by
        simp only [insertSongComms, hl]
      rw [step, ih]
      simp [List.filterMap_cons, hl]
    | some text =>
      have step : insertSongComms mid ct lang block ((sn, sid) :: rest) db =
          insertSongComms mid ct lang block rest
            (appendComm db mid (some sid) ct lang text) := by
        simp only [insertSongComms, hl]
      rw [step, ih]
      simp [List.filterMap_cons, hl, appendComm, List.append_assoc]

theorem insertBlock_ok (mid : Nat) (ct : String) (mapping : List (String × Nat))
    (lang k v : String) (rest : List (String × String)) (db : DB) :
    insertBlock mid (some ct) mapping lang ((k, v) :: rest) db =
      .ok { db with commentaries := db.commentaries ++
        (⟨mid, none, ct, lang, v⟩ ::
          mapping.filterMap (fun p => (lookupAssoc ((k, v) :: rest) p.1).map
            (fun t => ⟨mid, some p.2, ct, lang, t⟩))) } := by
  simp only [insertBlock]
  rw [insertSongComms_eq]
  simp [appendComm, List.append_assoc]

theorem insertBlock_empty (mid : Nat) (ctype : Option String)
    (mapping : List (String × Nat)) (lang : String) (db : DB) :
    insertBlock mid ctype mapping lang [] db = .error (.indexErr, db) := rfl

theorem insertBlock_noCtype (mid : Nat) (mapping : List (String × Nat))
    (lang k v : String) (rest : List (String × String)) (db : DB) :
    insertBlock mid none mapping lang ((k, v) :: rest) db =
      .error (.keyErr "commentary_type", db) := rfl

/-- The per-language loop succeeds on non-empty blocks with the kind
present, appends commentary rows only (all tagged with the resolved movie
and with song references drawn from the mapping), and touches nothing
else. -/
theorem insertBlocks_ok (mid : Nat) (ct : String) (mapping : List (String × Nat))
    (blocks : List (String × List (String × String))) :
    ∀ db : DB, (∀ b ∈ blocks, b.2 ≠ []) →
    ∃ db1, insertBlocks mid (some ct) mapping blocks db = .ok db1 ∧
      (∃ tail, db1.commentaries = db.commentaries ++ tail ∧
        ∀ c ∈ tail, c.movie_id = mid ∧
          ∀ sid ∈ c.song_id.toList, sid ∈ mapping.map (fun p => p.2)) ∧
      db1.movies = db.movies ∧ db1.castMembers = db.castMembers ∧
      db1.movieCast = db.movieCast ∧ db1.songs = db.songs ∧
      db1.nextMovieId = db.nextMovieId ∧ db1.nextCastId = db.nextCastId ∧
      db1.nextSongId = db.nextSongId := by
  induction blocks with
  | nil =>
    intro db _
    exact ⟨db, rfl, ⟨[], by simp, by simp⟩, rfl, rfl, rfl, rfl, rfl, rfl, rfl⟩
  | cons b rest ih =>
    intro db hne
    obtain ⟨lang, block⟩ := b
    cases block with
    | nil => exact absurd rfl (hne (lang, []) (List.mem_cons_self _ _))
    | cons kv bt =>
      obtain ⟨k, v⟩ := kv
      have hrest : ∀ b ∈ rest, b.2 ≠ [] :=
        fun b hb => hne b (List.mem_cons_of_mem _ hb)
      obtain ⟨db1, hok, ⟨tail, htail, htprop⟩, e1, e2, e3, e4, e5, e6, e7⟩ :=
        ih { db with commentaries := db.commentaries ++
          (⟨mid, none, ct, lang, v⟩ ::
            mapping.filterMap (fun p => (lookupAssoc ((k, v) :: bt) p.1).map
              (fun t => ⟨mid, some p.2, ct, lang, t⟩))) } hrest
      refine ⟨db1, ?_, ⟨(⟨mid, none, ct, lang, v⟩ ::
          mapping.filterMap (fun p => (lookupAssoc ((k, v) :: bt) p.1).map
            (fun t => ⟨mid, some p.2, ct, lang, t⟩))) ++ tail, ?_, ?_⟩,
        e1, e2, e3, e4, e5, e6, e7⟩
      · unfold insertBlocks
        rw [insertBlock_ok]
        exact hok
      · rw [htail]
        simp [List.append_assoc]
      · intro c hc
        rcases List.mem_append.mp hc with h2 | h2
        · rcases List.mem_cons.mp h2 with h3 | h3
          · subst h3
            exact ⟨rfl, by simp⟩
          · obtain ⟨p, hp, hmap⟩ := List.mem_filterMap.mp h3
            cases hl : lookupAssoc ((k, v) :: bt) p.1 with
            | none => rw [hl] at hmap; exact absurd hmap (by simp)
            | some t =>
              rw [hl] at hmap
              have hc2 : (⟨mid, some p.2, ct, lang, t⟩ : CommentaryRow) = c := by
                simpa using hmap
              subst hc2
              refine ⟨rfl, ?_⟩
              intro sid hsid
              have : sid = p.2 := by simpa using hsid
              subst this
              exact List.mem_map_of_mem _ hp
        · exact htprop c h2

/-- The per-language loop fails with `IndexError` as soon as an empty block
is reached (earlier non-empty blocks process fine). -/
theorem insertBlocks_emptyBlock (mid : Nat) (ct : String)
    (mapping : List (String × Nat))
    (blocks : List (String × List (String × String))) :
    ∀ db : DB, (∃ lang, (lang, ([] : List (String × String))) ∈ blocks) →
    ∃ dbE, insertBlocks mid (some ct) mapping blocks db =
      .error (.indexErr, dbE) := by
  induction blocks with
  | nil =>
    intro db h
    obtain ⟨lang, hl⟩ := h
    exact absurd hl (by simp)
  | cons b rest ih =>
    intro db h
    obtain ⟨lang0, block⟩ := b
    cases block with
    | nil =>
      refine ⟨db, ?_⟩
      unfold insertBlocks
      rw [insertBlock_empty]
    | cons kv bt =>
      obtain ⟨k, v⟩ := kv
      obtain ⟨lang, hl⟩ := h
      have hrest : (lang, ([] : List (String × String))) ∈ rest := by
        rcases List.mem_cons.mp hl with h2 | h2
        · exact absurd (congrArg Prod.snd h2) (by simp)
        · exact h2
      obtain ⟨dbE, hE⟩ := ih { db with commentaries := db.commentaries ++
          (⟨mid, none, ct, lang0, v⟩ ::
            mapping.filterMap (fun p => (lookupAssoc ((k, v) :: bt) p.1).map
              (fun t => ⟨mid, some p.2, ct, lang0, t⟩))) } ⟨lang, hrest⟩
      refine ⟨dbE, ?_⟩
      unfold insertBlocks
      rw [insertBlock_ok]
      exact hE

theorem insertBlocks_ok_nonempty {mid : Nat} {ctype : Option String}
    {mapping : List (String × Nat)}
    {blocks : List (String × List (String × String))} :
    ∀ {db db1 : DB}, insertBlocks mid ctype mapping blocks db = .ok db1 →
      ∀ b ∈ blocks, b.2 ≠ [] := by
  induction blocks with
  | nil =>
    intro db db1 _ b hb
    exact absurd hb (by simp)
  | cons b0 rest ih =>
    intro db db1 h b hb
    obtain ⟨lang, block⟩ := b0
    cases block with
    | nil =>
      unfold insertBlocks at h
      rw [insertBlock_empty] at h
      exact Except.noConfusion h
    | cons kv bt =>
      rcases List.mem_cons.mp hb with h2 | h2
      · subst h2
        simp
      · unfold insertBlocks at h
        cases hib : insertBlock mid ctype mapping lang (kv :: bt) db with
        | error e => rw [hib] at h; exact Except.noConfusion h
        | ok dbx =>
          rw [hib] at h
          exact ih h b h2

theorem insertBlocks_ctype_some {mid : Nat} {ctype : Option String}
    {mapping : List (String × Nat)} {lang : String}
    {kv : String × String} {bt : List (String × String)}
    {rest : List (String × List (String × String))} {db db1 : DB}
    (h : insertBlocks mid ctype mapping ((lang, kv :: bt) :: rest) db = .ok db1) :
    ∃ ct, ctype = some ct := by
  cases ctype with
  | some ct => exact ⟨ct, rfl⟩
  | none =>
    unfold insertBlocks at h
    obtain ⟨k, v⟩ := kv
    rw [insertBlock_noCtype] at h
    exact Except.noConfusion h

/-! ### loadDoc composition lemmas -/

theorem selectCastIdByName_mem {db : DB} {n : String} {cid : Nat}
    (h : selectCastIdByName db n = some cid) :
    ∃ cm ∈ db.castMembers, cm.cast_id = cid := by
  unfold selectCastIdByName at h
  cases hf : db.castMembers.find? (fun r => r.cast_name == n) with
  | none => rw [hf] at h; exact absurd h (by simp)
  | some r =>
    rw [hf] at h
    exact ⟨r, List.mem_of_find?_eq_some hf, by simpa using h⟩

theorem insertMovieCastCond_pairs (db : DB) (mid cid : Nat) :
    ∀ pr ∈ (insertMovieCastCond db mid cid).movieCast,
      pr ∈ db.movieCast ∨ pr = (mid, cid) := by
  intro pr hpr
  unfold insertMovieCastCond at hpr
  by_cases hany : db.movieCast.any (fun p => p.1 == mid && p.2 == cid) = true
  · rw [if_pos hany] at hpr
    exact Or.inl hpr
  · rw [if_neg hany] at hpr
    rcases List.mem_append.mp hpr with h2 | h2
    · exact Or.inl h2
    · exact Or.inr (by simpa using h2)

theorem insertOneCast_pairs {mid : Nat} {db : DB} {n : String} {db1 : DB}
    (h : insertOneCast mid db n = .ok db1) :
    ∀ pr ∈ db1.movieCast, pr ∈ db.movieCast ∨
      (pr.1 = mid ∧ ∃ cm ∈ db1.castMembers, cm.cast_id = pr.2) := by
  obtain ⟨cid, hc⟩ := selectCastIdByName_isSome_of_mem (insertCastCond_mem db n)
  simp only [insertOneCast, hc] at h
  have hdb1 : db1 = insertMovieCastCond (insertCastCond db n) mid cid := by
    cases h; rfl
  subst hdb1
  intro pr hpr
  obtain ⟨f1, f2, f3, f4, f5, f6, f7⟩ :=
    insertMovieCastCond_frame (insertCastCond db n) mid cid
  obtain ⟨g1, g2, g3, g4, g5, g6⟩ := insertCastCond_frame db n
  rcases insertMovieCastCond_pairs (insertCastCond db n) mid cid pr hpr with h2 | h2
  · rw [g2] at h2
    exact Or.inl h2
  · subst h2
    obtain ⟨cm, hcm, he⟩ := selectCastIdByName_mem hc
    refine Or.inr ⟨rfl, cm, ?_, he⟩
    rw [f2]
    exact hcm

theorem resolveCastStep_pairs {mid : Nat} {names : List String} :
    ∀ {db db2 : DB}, resolveCastStep mid names db = .ok db2 →
    ∀ pr ∈ db2.movieCast, pr ∈ db.movieCast ∨
      (pr.1 = mid ∧ ∃ cm ∈ db2.castMembers, cm.cast_id = pr.2) := by
  induction names with
  | nil =>
    intro db db2 h pr hpr
    cases h
    exact Or.inl hpr
  | cons n rest ih =>
    intro db db2 h pr hpr
    unfold resolveCastStep at h
    cases hone : insertOneCast mid db n with
    | error e => rw [hone] at h; exact Except.noConfusion h
    | ok dbm =>
      rw [hone] at h
      dsimp only at h
      obtain ⟨db2x, heq, _, _, _, _, _, ⟨tc, htc⟩, _, _, _, _, _⟩ :=
        resolveCastStep_spec mid rest dbm
      have hdb2 : db2x = db2 := by
        rw [heq] at h
        exact Except.ok.inj h
      subst hdb2
      rcases ih h pr hpr with h2 | h2
      · rcases insertOneCast_pairs hone pr h2 with h3 | h3
        · exact Or.inl h3
        · obtain ⟨he, cm, hcm, hid⟩ := h3
          refine Or.inr ⟨he, cm, ?_, hid⟩
          rw [htc]
          exact List.mem_append_left _ hcm
      · exact Or.inr h2

theorem blocks_nonempty_of_all {blocks : List (String × List (String × String))}
    (h : blocks.all (fun b => !b.2.isEmpty) = true) :
    ∀ b ∈ blocks, b.2 ≠ [] := by
  intro b hb
  have := List.all_eq_true.mp h b hb
  intro he
  rw [he] at this
  simp at this

/-- Decomposition of a successful `load` of a well-formed document into its
four stages. -/
theorem loadDoc_decomp (d : RawDoc) (db : DB) (hwf : wellFormed d = true) :
    ∃ meta names sorder blocks ct mid db1 db2 db4,
      d.metadata = some meta ∧ meta.cast = some names ∧
      d.songs_order = some sorder ∧ d.commentaries = some blocks ∧
      d.commentary_type = some ct ∧ metaOK meta = true ∧
      (∀ b ∈ blocks, b.2 ≠ []) ∧
      resolveMovieMeta meta db = .ok (db1, mid) ∧
      resolveCastStep mid names db1 = .ok db2 ∧
      insertBlocks mid (some ct) (resolveSongsStep mid sorder db2).2 blocks
        (resolveSongsStep mid sorder db2).1 = .ok db4 ∧
      loadDoc d db = .ok db4 := by
  unfold wellFormed at hwf
  cases hmeta : d.metadata with
  | none => rw [hmeta] at hwf; exact absurd hwf (by simp)
  | some meta =>
  rw [hmeta] at hwf
  cases hblocks : d.commentaries with
  | none => rw [hblocks] at hwf; simp at hwf
  | some blocks =>
  rw [hblocks] at hwf
  simp only [Bool.and_eq_true] at hwf
  obtain ⟨⟨⟨⟨hmok, hcast⟩, hso⟩, hct⟩, hball⟩ := hwf
  obtain ⟨names, hnames⟩ := Option.isSome_iff_exists.mp hcast
  obtain ⟨sorder, hsorder⟩ := Option.isSome_iff_exists.mp hso
  obtain ⟨ct, hctv⟩ := Option.isSome_iff_exists.mp hct
  obtain ⟨⟨db1, mid⟩, hmv⟩ := resolveMovieMeta_ok_of_metaOK db hmok
  obtain ⟨db2, hcv, _⟩ := resolveCastStep_spec mid names db1
  obtain ⟨db4, hbv, _⟩ :=
    insertBlocks_ok mid ct (resolveSongsStep mid sorder db2).2 blocks
      (resolveSongsStep mid sorder db2).1 (blocks_nonempty_of_all hball)
  refine ⟨meta, names, sorder, blocks, ct, mid, db1, db2, db4,
    rfl, hnames, hsorder, rfl, hctv, hmok,
    blocks_nonempty_of_all hball, hmv, hcv, hbv, ?_⟩
  unfold loadDoc
  simp only [hmeta, hmv, hnames, hcv, hsorder, hblocks, hctv, hbv]

/-- A successful load forces the document to be well-formed: success never
depends on the state of the store. -/
theorem wellFormed_of_loadDoc_ok {d : RawDoc} {db db4 : DB}
    (h : loadDoc d db = .ok db4) : wellFormed d = true := by
  unfold loadDoc at h
  unfold wellFormed
  cases hmeta : d.metadata with
  | none => simp only [hmeta] at h; exact Except.noConfusion h
  | some meta =>
  simp only [hmeta] at h
  cases hmv : resolveMovieMeta meta db with
  | error e => simp only [hmv] at h; exact Except.noConfusion h
  | ok p =>
  obtain ⟨db1, mid⟩ := p
  simp only [hmv] at h
  cases hnames : meta.cast with
  | none => simp only [hnames] at h; exact Except.noConfusion h
  | some names =>
  simp only [hnames] at h
  cases hcv : resolveCastStep mid names db1 with
  | error e => simp only [hcv] at h; exact Except.noConfusion h
  | ok db2 =>
  simp only [hcv] at h
  cases hso : d.songs_order with
  | none => simp only [hso] at h; exact Except.noConfusion h
  | some sorder =>
  simp only [hso] at h
  cases hblocks : d.commentaries with
  | none => simp only [hblocks] at h; exact Except.noConfusion h
  | some blocks =>
  simp only [hblocks] at h
  cases hbv : insertBlocks mid d.commentary_type
      (resolveSongsStep mid sorder db2).2 blocks
      (resolveSongsStep mid sorder db2).1 with
  | error e => simp only [hbv] at h; exact Except.noConfusion h
  | ok db4x =>
  simp only [hbv] at h
  cases hct : d.commentary_type with
  | none => simp only [hct] at h; exact Except.noConfusion h
  | some ct =>
  have hball : ∀ b ∈ blocks, b.2 ≠ [] := insertBlocks_ok_nonempty hbv
  have hmok := metaOK_of_resolveMovieMeta_ok hmv
  have hall : blocks.all (fun b => !b.2.isEmpty) = true := by
    rw [List.all_eq_true]
    intro b hb
    have hbne := hball b hb
    cases hbe : b.2.isEmpty with
    | false => simp
    | true => exact absurd (List.isEmpty_iff.mp hbe) hbne
  simp [hmok, hall, hnames, hso, hct]

theorem countCastByName_congr {db db2 : DB} (h : db2.castMembers = db.castMembers) :
    ∀ n, countCastByName db2 n = countCastByName db n := by
  intro n
  unfold countCastByName
  rw [h]

theorem countMoviesByName_congr {db db2 : DB} (h : db2.movies = db.movies) :
    ∀ n, countMoviesByName db2 n = countMoviesByName db n := by
  intro n
  unfold countMoviesByName
  rw [h]

theorem selectMovieIdByName_congr {db db2 : DB} (h : db2.movies = db.movies)
    (nm : String) : selectMovieIdByName db2 nm = selectMovieIdByName db nm := by
  unfold selectMovieIdByName
  rw [h]

theorem selectCastIdByName_congr {db db2 : DB} (h : db2.castMembers = db.castMembers)
    (n : String) : selectCastIdByName db2 n = selectCastIdByName db n := by
  unfold selectCastIdByName
  rw [h]

theorem songsByKey_congr {db db2 : DB} (h : db2.songs = db.songs)
    (m : Nat) (n : String) : songsByKey db2 m n = songsByKey db m n := by
  unfold songsByKey
  rw [h]

theorem MoviesUniq_congr {db db2 : DB} (h : db2.movies = db.movies)
    (hu : MoviesUniq db) : MoviesUniq db2 := by
  unfold MoviesUniq at hu ⊢
  rw [h]
  exact hu

theorem CastUniq_congr {db db2 : DB} (h : db2.castMembers = db.castMembers)
    (hu : CastUniq db) : CastUniq db2 := by
  unfold CastUniq at hu ⊢
  rw [h]
  exact hu

theorem MovieCastUniq_congr {db db2 : DB} (h : db2.movieCast = db.movieCast)
    (hu : MovieCastUniq db) : MovieCastUniq db2 := by
  unfold MovieCastUniq at hu ⊢
  rw [h]
  exact hu

theorem SongKeyUniq_congr {db db2 : DB} (h : db2.songs = db.songs)
    (hu : SongKeyUniq db) : SongKeyUniq db2 := by
  unfold SongKeyUniq at hu ⊢
  rw [h]
  exact hu

theorem insertSongsFrom_frame (m : Nat) (names : List String) :
    ∀ (idx : Nat) (db : DB) (mapping : List (String × Nat)),
      (insertSongsFrom m idx names db mapping).1.movies = db.movies ∧
      (insertSongsFrom m idx names db mapping).1.castMembers = db.castMembers ∧
      (insertSongsFrom m idx names db mapping).1.movieCast = db.movieCast ∧
      (insertSongsFrom m idx names db mapping).1.commentaries = db.commentaries ∧
      (insertSongsFrom m idx names db mapping).1.nextMovieId = db.nextMovieId ∧
      (insertSongsFrom m idx names db mapping).1.nextCastId = db.nextCastId := by
  induction names with
  | nil =>
    intro idx db mapping
    exact ⟨rfl, rfl, rfl, rfl, rfl, rfl⟩
  | cons n rest ih =>
    intro idx db mapping
    obtain ⟨f1, f2, f3, f4, f5, f6⟩ := upsertSong_frame db m n idx
    obtain ⟨g1, g2, g3, g4, g5, g6⟩ :=
      ih (idx + 1) (upsertSong db m n idx).1
        (assocUpsert mapping n (upsertSong db m n idx).2)
    rw [insertSongsFrom_cons]
    exact ⟨g1.trans f1, g2.trans f2, g3.trans f3, g4.trans f4,
      g5.trans f5, g6.trans f6⟩

theorem insertSongsFrom_uniq (m : Nat) (names : List String) :
    ∀ (idx : Nat) (db : DB) (mapping : List (String × Nat)),
      SongKeyUniq db → SongKeyUniq (insertSongsFrom m idx names db mapping).1 := by
  induction names with
  | nil =>
    intro idx db mapping h
    exact h
  | cons n rest ih =>
    intro idx db mapping h
    rw [insertSongsFrom_cons]
    exact ih (idx + 1) _ _ (upsertSong_uniq db m n idx h)

theorem resolveSongsStep_eq (m : Nat) (names : List String) (db : DB) :
    resolveSongsStep m names db = insertSongsFrom m 1 names db [] := rfl

/-- Master lemma: everything a successful load of a well-formed document
does to the store, phrased against the pre-state. -/
theorem loadDoc_run (d : RawDoc) (db : DB) (nm : String)
    (hwf : wellFormed d = true) (hnm : docMovieName d = some nm) :
    ∃ db4 mid, loadDoc d db = .ok db4 ∧
      (((∀ r ∈ db.movies, r.movie_name ≠ nm) ∧
        (∃ row : MovieRow, row.movie_id = db.nextMovieId ∧ row.movie_name = nm ∧
          db4.movies = db.movies ++ [row]) ∧
        mid = db.nextMovieId ∧ db4.nextMovieId = db.nextMovieId + 1) ∨
       ((∃ r ∈ db.movies, r.movie_name = nm ∧ r.movie_id = mid) ∧
        db4.movies = db.movies ∧ db4.nextMovieId = db.nextMovieId)) ∧
      selectMovieIdByName db4 nm = some mid ∧
      (MoviesUniq db → MoviesUniq db4) ∧
      (∀ n2, countCastByName db4 n2 =
        (if n2 ∈ docCast d ∧ countCastByName db n2 = 0 then 1
         else countCastByName db n2)) ∧
      (CastUniq db → CastUniq db4) ∧
      (MovieCastUniq db → MovieCastUniq db4) ∧
      (∀ n2 ∈ docCast d, ∃ cid, selectCastIdByName db4 n2 = some cid ∧
        (mid, cid) ∈ db4.movieCast) ∧
      (∃ t, db4.castMembers = db.castMembers ++ t) ∧
      (∃ t, db4.movieCast = db.movieCast ++ t) ∧
      (SongKeyUniq db → SongKeyUniq db4) ∧
      (∀ sorder, d.songs_order = some sorder → SongKeyUniq db → sorder.Nodup →
        (∀ i (hi : i < sorder.length), ∃ sid,
          songsByKey db4 mid (sorder.get ⟨i, hi⟩) =
            [⟨sid, mid, sorder.get ⟨i, hi⟩, 1 + i⟩]) ∧
        (∀ (m2 : Nat) (n2 : String), ¬(m2 = mid ∧ n2 ∈ sorder) →
          songsByKey db4 m2 n2 = songsByKey db m2 n2)) := by
  obtain ⟨meta, names, sorder0, blocks, ct, midD, db1D, db2D, db4D, hmeta, hnames,
    hsorder, hblocks, hctv, hmok, hball, hmv, hcv, hbv, hld⟩ :=
    loadDoc_decomp d db hwf
  rw [resolveSongsStep_eq] at hbv
  have hmm : meta.movie_name = some nm := by
    unfold docMovieName at hnm
    rw [hmeta] at hnm
    simpa using hnm
  have hdc : docCast d = names := by
    unfold docCast
    rw [hmeta]
    simp [hnames]
  obtain ⟨db1x, midx, hmvx, c1, c2, c3, c4, c5, c6, hdich⟩ :=
    resolveMovieMeta_spec meta db nm hmok hmm
  have hpr := Except.ok.inj (hmvx.symm.trans hmv)
  have e1 : db1x = db1D := congrArg Prod.fst hpr
  have e2 : midx = midD := congrArg Prod.snd hpr
  subst e1
  subst e2
  obtain ⟨db2x, hcvx, r1, r2, r3, r4, r5, ⟨tc, htc⟩, ⟨tm, htm⟩, hcount, huc,
    hum, hmem⟩ := resolveCastStep_spec midx names db1x
  have e3 : db2x = db2D := Except.ok.inj (hcvx.symm.trans hcv)
  subst e3
  obtain ⟨s1, s2, s3, s4, s5, s6⟩ := insertSongsFrom_frame midx sorder0 1 db2x []
  obtain ⟨db4x, hbvx, ⟨tailc, htailc, htailp⟩, b1, b2, b3, b4, b5, b6, b7⟩ :=
    insertBlocks_ok midx ct (insertSongsFrom midx 1 sorder0 db2x []).2 blocks
      (insertSongsFrom midx 1 sorder0 db2x []).1 hball
  have e4 : db4x = db4D := Except.ok.inj (hbvx.symm.trans hbv)
  subst e4
  have hmoviesChain : db4x.movies = db1x.movies := (b1.trans s1).trans r1
  have hnextChain : db4x.nextMovieId = db1x.nextMovieId := (b5.trans s5).trans r4
  have hcastChain : db4x.castMembers = db2x.castMembers := b2.trans s2
  have hmcChain : db4x.movieCast = db2x.movieCast := b3.trans s3
  have hsongsChain : db4x.songs = (insertSongsFrom midx 1 sorder0 db2x []).1.songs := b4
  refine ⟨db4x, midx, hld, ?_, ?_, ?_, ?_, ?_, ?_, ?_,
    ⟨tc, by rw [hcastChain, htc, c1]⟩, ⟨tm, by rw [hmcChain, htm, c2]⟩, ?_, ?_⟩
  · rcases hdich with ⟨hnone, ⟨row, hrid, hrnm, hd1m⟩, hmid, hn1⟩ | ⟨hd1m, hn1, hsel⟩
    · exact Or.inl ⟨hnone, ⟨row, hrid, hrnm, hmoviesChain.trans hd1m⟩, hmid,
        hnextChain.trans hn1⟩
    · obtain ⟨r, hr, hrn, hri⟩ := selectMovieIdByName_mem hsel
      exact Or.inr ⟨⟨r, hr, hrn, hri⟩, hmoviesChain.trans hd1m,
        hnextChain.trans hn1⟩
  · rcases hdich with ⟨hnone, ⟨row, hrid, hrnm, hd1m⟩, hmid, _⟩ | ⟨hd1m, _, hsel⟩
    · unfold selectMovieIdByName
      rw [hmoviesChain.trans hd1m]
      have hfind : db.movies.find? (fun r => r.movie_name == nm) = none := by
        rw [List.find?_eq_none]
        intro x hx
        simp [hnone x hx]
      rw [List.find?_append, hfind]
      have hrow : (row.movie_name == nm) = true := by simp [hrnm]
      have hfr : List.find? (fun r => r.movie_name == nm) [row] = some row :=
        List.find?_cons_of_pos (p := fun (r : MovieRow) => r.movie_name == nm) [] hrow
      rw [hfr]
      simp [hrid, hmid]
    · rw [selectMovieIdByName_congr (hmoviesChain.trans hd1m)]
      exact hsel
  · intro hu
    refine MoviesUniq_congr hmoviesChain ?_
    rcases hdich with ⟨hnone, ⟨row, hrid, hrnm, hd1m⟩, _, _⟩ | ⟨hd1m, _, _⟩
    · unfold MoviesUniq
      rw [hd1m, List.pairwise_append]
      refine ⟨hu, by simp, ?_⟩
      intro a ha b hb
      have hbv2 : b = row := by simpa using hb
      subst hbv2
      rw [hrnm]
      exact hnone a ha
    · exact MoviesUniq_congr hd1m hu
  · intro n2
    rw [countCastByName_congr hcastChain n2, hcount n2,
      countCastByName_congr c1 n2, hdc]
  · intro hu
    exact CastUniq_congr hcastChain (huc (CastUniq_congr c1 hu))
  · intro hu
    exact MovieCastUniq_congr hmcChain (hum (MovieCastUniq_congr c2 hu))
  · intro n2 hn2
    rw [hdc] at hn2
    obtain ⟨cid, hsel2, hpair2⟩ := hmem n2 hn2
    refine ⟨cid, ?_, ?_⟩
    · rw [selectCastIdByName_congr hcastChain]
      exact hsel2
    · rw [hmcChain]
      exact hpair2
  · intro hu
    exact SongKeyUniq_congr hsongsChain
      (insertSongsFrom_uniq midx sorder0 1 db2x []
        (SongKeyUniq_congr r2 (SongKeyUniq_congr c3 hu)))
  · intro sorder hsorder2 hU hnd
    have hse : sorder = sorder0 := Option.some_inj.mp (hsorder2.symm.trans hsorder)
    subst hse
    have hU2 : SongKeyUniq db2x := SongKeyUniq_congr r2 (SongKeyUniq_congr c3 hU)
    obtain ⟨_, _, _, _, _, _, _, hkeyF, hotherF⟩ :=
      insertSongsFrom_spec midx sorder 1 db2x [] hU2 hnd
    constructor
    · intro i hi
      obtain ⟨sid, hs⟩ := hkeyF i hi
      refine ⟨sid, ?_⟩
      rw [songsByKey_congr hsongsChain]
      exact hs
    · intro m2 n2 hno
      rw [songsByKey_congr hsongsChain, hotherF m2 n2 hno,
        songsByKey_congr r2, songsByKey_congr c3]

/-! ### Wrappers and counting helpers -/

theorem load_yaml_file_of_ok {d : RawDoc} {conn : Conn} {db4 : DB}
    (h : loadDoc d conn.current = .ok db4) :
    load_yaml_file d conn = (⟨db4, db4⟩, none) := by
  unfold load_yaml_file
  rw [h]

theorem load_yaml_file_of_error {d : RawDoc} {conn : Conn} {e : LoadErr} {dbE : DB}
    (h : loadDoc d conn.current = .error (e, dbE)) :
    load_yaml_file d conn = ({ conn with current := dbE }, some e) := by
  unfold load_yaml_file
  rw [h]

theorem load_yaml_file_ok {d : RawDoc} {conn : Conn}
    (h : (load_yaml_file d conn).2 = none) :
    ∃ db4, loadDoc d conn.current = .ok db4 ∧
      (load_yaml_file d conn).1 = ⟨db4, db4⟩ := by
  cases hld : loadDoc d conn.current with
  | ok db4 =>
    refine ⟨db4, rfl, ?_⟩
    rw [load_yaml_file_of_ok hld]
  | error e =>
    obtain ⟨e1, dbE⟩ := e
    rw [load_yaml_file_of_error hld] at h
    exact absurd h (by simp)

theorem countP_one {α : Type} (p : α → Bool) : ∀ {l : List α},
    l.Pairwise (fun a b => ¬(p a = true ∧ p b = true)) →
    ∀ a ∈ l, p a = true → l.countP p = 1 := by
  intro l
  induction l with
  | nil =>
    intro _ a ha
    exact absurd ha (by simp)
  | cons x t ih =>
    intro hU a ha hp
    rw [List.pairwise_cons] at hU
    rcases List.mem_cons.mp ha with he | he
    · subst he
      rw [List.countP_cons]
      have ht : t.countP p = 0 := by
        rw [List.countP_eq_zero]
        intro b hb hpb
        exact hU.1 b hb ⟨hp, hpb⟩
      simp [ht, hp]
    · rw [List.countP_cons]
      have hx : p x = false := by
        cases hpx : p x with
        | false => rfl
        | true => exact absurd ⟨hpx, hp⟩ (hU.1 a he)
      rw [ih hU.2 a he hp]
      simp [hx]

theorem countMovies_one {db : DB} {nm : String} (hU : MoviesUniq db)
    {r : MovieRow} (hr : r ∈ db.movies) (hn : r.movie_name = nm) :
    countMoviesByName db nm = 1 := by
  unfold countMoviesByName
  refine countP_one _ ?_ r hr (by simp [hn])
  refine hU.imp ?_
  intro a b hab hc
  apply hab
  have h1 : a.movie_name = nm := by simpa using hc.1
  have h2 : b.movie_name = nm := by simpa using hc.2
  rw [h1, h2]

theorem countAssoc_one {db : DB} {mid cid : Nat} (hU : MovieCastUniq db)
    (hmem : (mid, cid) ∈ db.movieCast) : countAssoc db mid cid = 1 := by
  unfold countAssoc
  refine countP_one _ ?_ (mid, cid) hmem (by simp)
  refine hU.imp ?_
  intro a b hab hc
  apply hab
  have h1 : a = (mid, cid) := by
    have hx := hc.1
    simp only [Bool.and_eq_true, beq_iff_eq] at hx
    exact Prod.ext hx.1 hx.2
  have h2 : b = (mid, cid) := by
    have hx := hc.2
    simp only [Bool.and_eq_true, beq_iff_eq] at hx
    exact Prod.ext hx.1 hx.2
  rw [h1, h2]

theorem movieRow_unique {db : DB} (hU : MoviesUniq db) {r r2 : MovieRow}
    (hr : r ∈ db.movies) (hr2 : r2 ∈ db.movies)
    (hn : r.movie_name = r2.movie_name) : r = r2 := by
  by_contra hne
  have := List.Pairwise.forall
    (R := fun a b : MovieRow => a.movie_name ≠ b.movie_name)
    (fun a b h => Ne.symm h) hU hr hr2 hne
  exact this hn

/-! ### Idempotence helpers for the cast step -/

theorem selectCastIdByName_name_mem {db : DB} {n : String} {cid : Nat}
    (h : selectCastIdByName db n = some cid) :
    ∃ r ∈ db.castMembers, r.cast_name = n ∧ r.cast_id = cid := by
  unfold selectCastIdByName at h
  cases hf : db.castMembers.find? (fun r => r.cast_name == n) with
  | none => rw [hf] at h; exact absurd h (by simp)
  | some r =>
    rw [hf] at h
    exact ⟨r, List.mem_of_find?_eq_some hf, by simpa using List.find?_some hf,
      by simpa using h⟩

theorem insertCastCond_noop {db : DB} {n : String}
    (h : ∃ r ∈ db.castMembers, r.cast_name = n) : insertCastCond db n = db := by
  obtain ⟨r, hr, he⟩ := h
  unfold insertCastCond
  rw [if_pos (List.any_eq_true.mpr ⟨r, hr, by simp [he]⟩)]

theorem insertMovieCastCond_noop {db : DB} {mid cid : Nat}
    (h : (mid, cid) ∈ db.movieCast) : insertMovieCastCond db mid cid = db := by
  unfold insertMovieCastCond
  rw [if_pos (List.any_eq_true.mpr ⟨(mid, cid), h, by simp⟩)]

theorem resolveCastStep_fixed (mid : Nat) : ∀ (names : List String) (db2 : DB),
    (∀ n ∈ names, ∃ cid, selectCastIdByName db2 n = some cid ∧
      (mid, cid) ∈ db2.movieCast) →
    resolveCastStep mid names db2 = .ok db2 := by
  intro names
  induction names with
  | nil =>
    intro db2 _
    rfl
  | cons n rest ih =>
    intro db2 hfix
    obtain ⟨cid, hsel, hpair⟩ := hfix n (List.mem_cons_self n rest)
    obtain ⟨r, hr, hname, _⟩ := selectCastIdByName_name_mem hsel
    have hcc : insertCastCond db2 n = db2 := insertCastCond_noop ⟨r, hr, hname⟩
    have hone : insertOneCast mid db2 n = .ok db2 := by
      simp only [insertOneCast, hcc, hsel]
      rw [insertMovieCastCond_noop hpair]
    unfold resolveCastStep
    rw [hone]
    exact ih db2 (fun n2 hn2 => hfix n2 (List.mem_cons_of_mem n hn2))

theorem resolveCastStep_idem {mid : Nat} {names : List String} {db db2 : DB}
    (h : resolveCastStep mid names db = .ok db2) :
    resolveCastStep mid names db2 = .ok db2 := by
  obtain ⟨db2x, heq, _, _, _, _, _, _, _, _, _, _, hmem⟩ :=
    resolveCastStep_spec mid names db
  have e : db2x = db2 := Except.ok.inj (heq.symm.trans h)
  subst e
  exact resolveCastStep_fixed mid names db2x hmem

/-! ### Referential-integrity transport lemmas -/

theorem RefOK_movies_extend {db db2 : DB} (hRef : RefOK db)
    (hm : ∃ t, db2.movies = db.movies ++ t)
    (hc : db2.castMembers = db.castMembers) (hmc : db2.movieCast = db.movieCast)
    (hs : db2.songs = db.songs) (hcm : db2.commentaries = db.commentaries) :
    RefOK db2 := by
  obtain ⟨t, ht⟩ := hm
  obtain ⟨R1, R2, R3⟩ := hRef
  refine ⟨?_, ?_, ?_⟩
  · intro s hs2
    rw [hs] at hs2
    obtain ⟨m, hm2, he⟩ := R1 s hs2
    exact ⟨m, by rw [ht]; exact List.mem_append_left _ hm2, he⟩
  · intro c hc2
    rw [hcm] at hc2
    obtain ⟨⟨m, hm2, he⟩, hsid⟩ := R2 c hc2
    refine ⟨⟨m, by rw [ht]; exact List.mem_append_left _ hm2, he⟩, ?_⟩
    intro sid hsid2
    obtain ⟨s, hs3, he2⟩ := hsid sid hsid2
    exact ⟨s, by rw [hs]; exact hs3, he2⟩
  · intro p hp
    rw [hmc] at hp
    obtain ⟨⟨m, hm2, he⟩, cm, hcm2, he2⟩ := R3 p hp
    exact ⟨⟨m, by rw [ht]; exact List.mem_append_left _ hm2, he⟩,
      cm, by rw [hc]; exact hcm2, he2⟩

theorem RefOK_cast_stage {db1 db2 : DB} {mid : Nat} (hRef : RefOK db1)
    (hmv : ∃ m ∈ db1.movies, m.movie_id = mid)
    (hmovies : db2.movies = db1.movies) (hsongs : db2.songs = db1.songs)
    (hcomms : db2.commentaries = db1.commentaries)
    (hcastsuf : ∃ t, db2.castMembers = db1.castMembers ++ t)
    (hpairs : ∀ pr ∈ db2.movieCast, pr ∈ db1.movieCast ∨
      (pr.1 = mid ∧ ∃ cm ∈ db2.castMembers, cm.cast_id = pr.2)) :
    RefOK db2 := by
  obtain ⟨t, ht⟩ := hcastsuf
  obtain ⟨R1, R2, R3⟩ := hRef
  refine ⟨?_, ?_, ?_⟩
  · intro s hs2
    rw [hsongs] at hs2
    obtain ⟨m, hm2, he⟩ := R1 s hs2
    exact ⟨m, by rw [hmovies]; exact hm2, he⟩
  · intro c hc2
    rw [hcomms] at hc2
    obtain ⟨⟨m, hm2, he⟩, hsid⟩ := R2 c hc2
    refine ⟨⟨m, by rw [hmovies]; exact hm2, he⟩, ?_⟩
    intro sid hsid2
    obtain ⟨s, hs3, he2⟩ := hsid sid hsid2
    exact ⟨s, by rw [hsongs]; exact hs3, he2⟩
  · intro p hp
    rcases hpairs p hp with h2 | ⟨he, cm, hcm2, he2⟩
    · obtain ⟨⟨m, hm2, hem⟩, cm, hcm2, hec⟩ := R3 p h2
      exact ⟨⟨m, by rw [hmovies]; exact hm2, hem⟩,
        cm, by rw [ht]; exact List.mem_append_left _ hcm2, hec⟩
    · obtain ⟨m, hm2, hem⟩ := hmv
      exact ⟨⟨m, by rw [hmovies]; exact hm2, by rw [hem, he]⟩, cm, hcm2, he2⟩

theorem RefOK_songs_stage {db2 dbp : DB} {mid : Nat} (hRef : RefOK db2)
    (hmv : ∃ m ∈ db2.movies, m.movie_id = mid)
    (hmovies : dbp.movies = db2.movies) (hcast : dbp.castMembers = db2.castMembers)
    (hmc : dbp.movieCast = db2.movieCast) (hcm : dbp.commentaries = db2.commentaries)
    (hpres : ∀ s ∈ db2.songs, ∃ s2 ∈ dbp.songs, s2.song_id = s.song_id ∧
      s2.movie_id = s.movie_id ∧ s2.song_name = s.song_name)
    (hnew : ∀ s2 ∈ dbp.songs, (∃ s ∈ db2.songs, s2.song_id = s.song_id ∧
      s2.movie_id = s.movie_id ∧ s2.song_name = s.song_name) ∨ s2.movie_id = mid) :
    RefOK dbp := by
  obtain ⟨R1, R2, R3⟩ := hRef
  refine ⟨?_, ?_, ?_⟩
  · intro s2 hs2
    rcases hnew s2 hs2 with ⟨s, hs3, _, he2, _⟩ | he
    · obtain ⟨m, hm2, hem⟩ := R1 s hs3
      exact ⟨m, by rw [hmovies]; exact hm2, by rw [hem, he2]⟩
    · obtain ⟨m, hm2, hem⟩ := hmv
      exact ⟨m, by rw [hmovies]; exact hm2, by rw [hem, he]⟩
  · intro c hc2
    rw [hcm] at hc2
    obtain ⟨⟨m, hm2, hem⟩, hsid⟩ := R2 c hc2
    refine ⟨⟨m, by rw [hmovies]; exact hm2, hem⟩, ?_⟩
    intro sid hsid2
    obtain ⟨s, hs3, he1, he2⟩ := hsid sid hsid2
    obtain ⟨s2, hs4, g1, g2, g3⟩ := hpres s hs3
    exact ⟨s2, hs4, g1.trans he1, g2.trans he2⟩
  · intro p hp
    rw [hmc] at hp
    obtain ⟨⟨m, hm2, hem⟩, cm, hcm2, hec⟩ := R3 p hp
    exact ⟨⟨m, by rw [hmovies]; exact hm2, hem⟩,
      cm, by rw [hcast]; exact hcm2, hec⟩

theorem RefOK_comm_stage {dbp db4 : DB} {mid : Nat} {tail : List CommentaryRow}
    (hRef : RefOK dbp)
    (hmv : ∃ m ∈ dbp.movies, m.movie_id = mid)
    (hmovies : db4.movies = dbp.movies) (hcast : db4.castMembers = dbp.castMembers)
    (hmc : db4.movieCast = dbp.movieCast) (hsongs : db4.songs = dbp.songs)
    (htail : db4.commentaries = dbp.commentaries ++ tail)
    (htprop : ∀ c ∈ tail, c.movie_id = mid ∧ ∀ sid ∈ c.song_id.toList,
      ∃ s ∈ dbp.songs, s.song_id = sid ∧ s.movie_id = mid) :
    RefOK db4 := by
  obtain ⟨R1, R2, R3⟩ := hRef
  refine ⟨?_, ?_, ?_⟩
  · intro s hs2
    rw [hsongs] at hs2
    obtain ⟨m, hm2, hem⟩ := R1 s hs2
    exact ⟨m, by rw [hmovies]; exact hm2, hem⟩
  · intro c hc2
    rw [htail] at hc2
    rcases List.mem_append.mp hc2 with h2 | h2
    · obtain ⟨⟨m, hm2, hem⟩, hsid⟩ := R2 c h2
      refine ⟨⟨m, by rw [hmovies]; exact hm2, hem⟩, ?_⟩
      intro sid hsid2
      obtain ⟨s, hs3, he1, he2⟩ := hsid sid hsid2
      exact ⟨s, by rw [hsongs]; exact hs3, he1, he2⟩
    · obtain ⟨hcm, hsid⟩ := htprop c h2
      obtain ⟨m, hm2, hem⟩ := hmv
      refine ⟨⟨m, by rw [hmovies]; exact hm2, by rw [hem, hcm]⟩, ?_⟩
      intro sid hsid2
      obtain ⟨s, hs3, he1, he2⟩ := hsid sid hsid2
      exact ⟨s, by rw [hsongs]; exact hs3, he1, by rw [he2, hcm]⟩
  · intro p hp
    rw [hmc] at hp
    obtain ⟨⟨m, hm2, hem⟩, cm, hcm2, hec⟩ := R3 p hp
    exact ⟨⟨m, by rw [hmovies]; exact hm2, hem⟩,
      cm, by rw [hcast]; exact hcm2, hec⟩

/-! ### Claim theorems -/

/-- Claim C1, counterexample: on a document whose (only) per-language block
lists a song entry first and the movie-level entry second, the code takes
the block's FIRST key as the movie-level key.  The song entry "S" produces
two rows (one with a null song reference, one with the song's identity),
and the entry whose key designates the movie itself ("M", text "tm")
produces no row at all — no commentary row with text "tm" exists, refuting
"the entry whose key designates the movie itself is inserted with a null
song reference" and "every text entry produces exactly one appended row". -/
theorem claim_C1_counterexample :
    (load_yaml_file songFirstDoc initConn).2 = none ∧
    (((load_yaml_file songFirstDoc initConn).1).committed.commentaries.all
      (fun c => c.commentary_text != "tm")) = true ∧
    (((load_yaml_file songFirstDoc initConn).1).committed.commentaries.countP
      (fun c => c.commentary_text == "ts")) = 2 := by
  decide

/-- Claim C1, amended: for every non-empty per-language block (with the
commentary kind present), the block's FIRST entry — regardless of whether
its key designates the movie — is appended once with a null song reference;
then, for each entry of the song mapping in insertion order whose name has
a text in the block, one row with that song's identity and that text is
appended (so a first entry whose key is a known song yields two rows);
entries other than the first whose key matches no known song are silently
skipped. -/
theorem claim_C1 (mid : Nat) (ct : String) (mapping : List (String × Nat))
    (lang : String) (block : List (String × String)) (db : DB)
    (k v : String) (rest : List (String × String))
    (hblock : block = (k, v) :: rest) :
    insertBlock mid (some ct) mapping lang block db =
      .ok { db with commentaries := db.commentaries ++
        (⟨mid, none, ct, lang, v⟩ ::
          mapping.filterMap (fun p => (lookupAssoc block p.1).map
            (fun t => ⟨mid, some p.2, ct, lang, t⟩))) } := by
  subst hblock
  exact insertBlock_ok mid ct mapping lang k v rest db

/-- Witness for the amended C1 at a concrete block and mapping. -/
theorem claim_C1_witness :
    ([("S", "a"), ("M", "b")] : List (String × String)) = ("S", "a") :: [("M", "b")] ∧
    insertBlock 0 (some "long") [("S", 5)] "Hindi" [("S", "a"), ("M", "b")] emptyDB =
      .ok { emptyDB with commentaries := emptyDB.commentaries ++
        (⟨0, none, "long", "Hindi", "a"⟩ ::
          ([("S", 5)] : List (String × Nat)).filterMap
            (fun p => (lookupAssoc [("S", "a"), ("M", "b")] p.1).map
              (fun t => ⟨0, some p.2, "long", "Hindi", t⟩))) } :=
  ⟨rfl, claim_C1 0 "long" [("S", 5)] "Hindi" [("S", "a"), ("M", "b")] emptyDB
    "S" "a" [("M", "b")] rfl⟩

/-- Claim C2 (code bug): `main` never rolls back after a failed document,
so the failed document's pending writes stay in the open transaction and
are committed by the next successful document's `conn.commit()`.  Here
`badDoc` (missing `commentary_type`) fails after its movie, cast and song
inserts executed; ingesting `goodDoc` afterwards commits `badDoc`'s movie
row — the store is NOT left unchanged by the failed attempt. -/
theorem claim_C2_bug :
    (runBatch [badDoc, goodDoc] initConn).2 =
      [some (LoadErr.keyErr "commentary_type"), none] ∧
    countMoviesByName (runBatch [badDoc, goodDoc] initConn).1.committed
      "Bad Movie" = 1 := by
  decide

/-- Claim C3 (code bug): after `badDoc` fails, its writes are never
discarded — the pending movie row survives in the session state, is still
there after the batch, and even ends up committed; the subsequent
well-formed document is nevertheless ingested (its outcome is `none`).
The "its writes are discarded (rolled back)" part of the claim is false. -/
theorem claim_C3_bug :
    (load_yaml_file badDoc initConn).2 = some (LoadErr.keyErr "commentary_type") ∧
    countMoviesByName ((load_yaml_file badDoc initConn).1).current "Bad Movie" = 1 ∧
    ((load_yaml_file badDoc initConn).1).committed = emptyDB ∧
    (runBatch [badDoc, goodDoc] initConn).2 =
      [some (LoadErr.keyErr "commentary_type"), none] ∧
    countMoviesByName (runBatch [badDoc, goodDoc] initConn).1.current
      "Bad Movie" = 1 := by
  decide

theorem filter_singleton_find? {l : List SongRow} {p : SongRow → Bool}
    {a : SongRow} (h : l.filter p = [a]) : l.find? p = some a := by
  induction l with
  | nil => simp at h
  | cons x t ih =>
    by_cases hx : p x = true
    · rw [List.filter_cons_of_pos hx] at h
      rw [List.find?_cons_of_pos t hx]
      injection h with h1 h2
      rw [h1]
    · rw [List.filter_cons_of_neg hx] at h
      rw [List.find?_cons_of_neg t hx]
      exact ih h

theorem upsertSong_conflict_id (db : DB) (m : Nat) (n : String)
    (ord sid ord1 : Nat)
    (hk : songsByKey db m n = [⟨sid, m, n, ord1⟩]) :
    (upsertSong db m n ord).2 = sid := by
  have hk2 : db.songs.filter (fun s => s.movie_id == m && s.song_name == n) =
      [⟨sid, m, n, ord1⟩] := hk
  have hf : db.songs.find? (fun s => s.movie_id == m && s.song_name == n) =
      some ⟨sid, m, n, ord1⟩ := filter_singleton_find? hk2
  unfold upsertSong
  rw [hf]

theorem insertSongsFrom_id_stable (m : Nat) (names : List String) :
    ∀ (idx : Nat) (db : DB) (mapping : List (String × Nat)) (n : String)
      (sid ord1 : Nat), SongKeyUniq db →
      songsByKey db m n = [⟨sid, m, n, ord1⟩] →
      ∃ ord2, songsByKey (insertSongsFrom m idx names db mapping).1 m n =
        [⟨sid, m, n, ord2⟩] := by
  induction names with
  | nil =>
    intro idx db mapping n sid ord1 hU hk
    exact ⟨ord1, hk⟩
  | cons x rest ih =>
    intro idx db mapping n sid ord1 hU hk
    rw [insertSongsFrom_cons]
    by_cases hxn : x = n
    · subst hxn
      have hret := upsertSong_conflict_id db m x idx sid ord1 hk
      have hkey := upsertSong_key db m x idx hU
      rw [hret] at hkey
      exact ih (idx + 1) (upsertSong db m x idx).1
        (assocUpsert mapping x (upsertSong db m x idx).2) x sid idx
        (upsertSong_uniq db m x idx hU) hkey
    · have hne : ¬(m = m ∧ n = x) := fun h => hxn h.2.symm
      have hoth := upsertSong_other db m x idx m n hne
      rw [hk] at hoth
      exact ih (idx + 1) (upsertSong db m x idx).1
        (assocUpsert mapping x (upsertSong db m x idx).2) n sid ord1
        (upsertSong_uniq db m x idx hU) hoth

/-- Claim C5, counterexample: `ResolveSongs` with the duplicate-containing
ordered list `["A", "A"]` leaves the single `(7, "A")` row with ordinal 2
(the last position), so the name at 1-based position 1 has NO row whose
ordinal equals 1, refuting the claim as stated for arbitrary ordered
lists. -/
theorem claim_C5_counterexample :
    ¬ ∃ s ∈ (resolveSongsStep 7 ["A", "A"] emptyDB).1.songs,
        s.movie_id = 7 ∧ s.song_name = "A" ∧ s.song_order = 1 := by
  decide

/-- Claim C5, amended: for every movie identity and ordered song-name list
WITHOUT repeated names, after `ResolveSongs` each name at 1-based position
`i` corresponds to exactly one Song row keyed on (movie, name) whose
ordinal equals `i`; re-running `ResolveSongs` for the same movie with a
reordered (duplicate-free) list leaves exactly one Song row per name, with
the ordinal from the second run; and on conflict only the ordinal is
updated: a name shared by both runs keeps the song identity its row had
after the first run, only its ordinal moving to the new position. -/
theorem claim_C5 (m : Nat) (names names2 : List String) (db : DB)
    (hU : SongKeyUniq db) (h1 : names.Nodup) (h2 : names2.Nodup)
    (hperm : names2.Perm names) :
    (∀ i (hi : i < names.length), ∃ sid,
      songsByKey (resolveSongsStep m names db).1 m (names.get ⟨i, hi⟩) =
        [⟨sid, m, names.get ⟨i, hi⟩, i + 1⟩]) ∧
    (∀ i (hi : i < names2.length), ∃ sid,
      songsByKey (resolveSongsStep m names2 (resolveSongsStep m names db).1).1 m
          (names2.get ⟨i, hi⟩) =
        [⟨sid, m, names2.get ⟨i, hi⟩, i + 1⟩]) ∧
    (∀ n ∈ names2,
      ((resolveSongsStep m names2 (resolveSongsStep m names db).1).1.songs.countP
        (fun s => s.movie_id == m && s.song_name == n)) = 1) ∧
    (∀ i (hi : i < names.length) j (hj : j < names2.length),
      names.get ⟨i, hi⟩ = names2.get ⟨j, hj⟩ →
      ∃ sid,
        songsByKey (resolveSongsStep m names db).1 m (names.get ⟨i, hi⟩) =
          [⟨sid, m, names.get ⟨i, hi⟩, i + 1⟩] ∧
        songsByKey (resolveSongsStep m names2
            (resolveSongsStep m names db).1).1 m (names.get ⟨i, hi⟩) =
          [⟨sid, m, names.get ⟨i, hi⟩, j + 1⟩]) := by
  have hU1 : SongKeyUniq (resolveSongsStep m names db).1 := by
    rw [resolveSongsStep_eq]
    exact insertSongsFrom_uniq m names 1 db [] hU
  obtain ⟨_, _, _, _, _, _, _, hkey1, _⟩ := insertSongsFrom_spec m names 1 db [] hU h1
  obtain ⟨_, _, _, _, _, _, _, hkey2, _⟩ :=
    insertSongsFrom_spec m names2 1 (resolveSongsStep m names db).1 [] hU1 h2
  refine ⟨?_, ?_, ?_, ?_⟩
  · intro i hi
    obtain ⟨sid, hs⟩ := hkey1 i hi
    refine ⟨sid, ?_⟩
    rw [resolveSongsStep_eq, Nat.add_comm i 1]
    exact hs
  · intro i hi
    obtain ⟨sid, hs⟩ := hkey2 i hi
    refine ⟨sid, ?_⟩
    rw [resolveSongsStep_eq m names2, Nat.add_comm i 1]
    exact hs
  · intro n hn
    obtain ⟨⟨i, hi⟩, hget⟩ := List.get_of_mem hn
    obtain ⟨sid, hs⟩ := hkey2 i hi
    rw [hget] at hs
    rw [List.countP_eq_length_filter]
    have hfe : ((resolveSongsStep m names2 (resolveSongsStep m names db).1).1.songs.filter
        (fun s => s.movie_id == m && s.song_name == n)) =
        songsByKey (resolveSongsStep m names2 (resolveSongsStep m names db).1).1 m n := rfl
    rw [hfe, resolveSongsStep_eq m names2, hs]
    rfl
  · intro i hi j hj heq
    obtain ⟨sid, hs⟩ := hkey1 i hi
    have hs1 : songsByKey (resolveSongsStep m names db).1 m (names.get ⟨i, hi⟩) =
        [⟨sid, m, names.get ⟨i, hi⟩, i + 1⟩] := by
      rw [resolveSongsStep_eq, Nat.add_comm i 1]
      exact hs
    obtain ⟨ord2, hstab⟩ := insertSongsFrom_id_stable m names2 1
      (resolveSongsStep m names db).1 [] (names.get ⟨i, hi⟩) sid (i + 1) hU1 hs1
    obtain ⟨sid2, hs2⟩ := hkey2 j hj
    rw [← heq] at hs2
    have hee := hstab.symm.trans hs2
    injection hee with hrow _
    injection hrow with e1 e2 e3 e4
    refine ⟨sid, hs1, ?_⟩
    rw [resolveSongsStep_eq m names2, hstab, e4, Nat.add_comm 1 j]

/-- Witness for the amended C5 at a concrete pair of reordered lists. -/
theorem claim_C5_witness :
    SongKeyUniq emptyDB ∧ (["X", "Y"] : List String).Nodup ∧
    (["Y", "X"] : List String).Nodup ∧
    (["Y", "X"] : List String).Perm ["X", "Y"] ∧
    ((∀ i (hi : i < (["X", "Y"] : List String).length), ∃ sid,
      songsByKey (resolveSongsStep 3 ["X", "Y"] emptyDB).1 3
          ((["X", "Y"] : List String).get ⟨i, hi⟩) =
        [⟨sid, 3, (["X", "Y"] : List String).get ⟨i, hi⟩, i + 1⟩]) ∧
    (∀ i (hi : i < (["Y", "X"] : List String).length), ∃ sid,
      songsByKey (resolveSongsStep 3 ["Y", "X"]
          (resolveSongsStep 3 ["X", "Y"] emptyDB).1).1 3
          ((["Y", "X"] : List String).get ⟨i, hi⟩) =
        [⟨sid, 3, (["Y", "X"] : List String).get ⟨i, hi⟩, i + 1⟩]) ∧
    (∀ n ∈ (["Y", "X"] : List String),
      ((resolveSongsStep 3 ["Y", "X"]
          (resolveSongsStep 3 ["X", "Y"] emptyDB).1).1.songs.countP
        (fun s => s.movie_id == 3 && s.song_name == n)) = 1) ∧
    (∀ i (hi : i < (["X", "Y"] : List String).length) j
        (hj : j < (["Y", "X"] : List String).length),
      (["X", "Y"] : List String).get ⟨i, hi⟩ =
        (["Y", "X"] : List String).get ⟨j, hj⟩ →
      ∃ sid,
        songsByKey (resolveSongsStep 3 ["X", "Y"] emptyDB).1 3
            ((["X", "Y"] : List String).get ⟨i, hi⟩) =
          [⟨sid, 3, (["X", "Y"] : List String).get ⟨i, hi⟩, i + 1⟩] ∧
        songsByKey (resolveSongsStep 3 ["Y", "X"]
            (resolveSongsStep 3 ["X", "Y"] emptyDB).1).1 3
            ((["X", "Y"] : List String).get ⟨i, hi⟩) =
          [⟨sid, 3, (["X", "Y"] : List String).get ⟨i, hi⟩, j + 1⟩])) :=
  ⟨List.Pairwise.nil, by decide, by decide, by decide,
    claim_C5 3 ["X", "Y"] ["Y", "X"] emptyDB List.Pairwise.nil
      (by decide) (by decide) (by decide)⟩

/-- Claim C10: a document containing an empty per-language commentary block
(and otherwise complete) fails with the `IndexError` raised by
`list(commentary_data.keys())[0]`, and that document's `conn.commit()` is
never reached: the committed store is unchanged by the call. -/
theorem claim_C10 (d : RawDoc) (conn : Conn) (meta : RawMeta)
    (blocks : List (String × List (String × String))) (ct : String)
    (hmeta : d.metadata = some meta) (hmok : metaOK meta = true)
    (hcast : meta.cast.isSome = true) (hso : d.songs_order.isSome = true)
    (hct : d.commentary_type = some ct)
    (hblocks : d.commentaries = some blocks)
    (hempty : ∃ lang, (lang, ([] : List (String × String))) ∈ blocks) :
    (load_yaml_file d conn).2 = some LoadErr.indexErr ∧
    ((load_yaml_file d conn).1).committed = conn.committed := by
  obtain ⟨names, hnames⟩ := Option.isSome_iff_exists.mp hcast
  obtain ⟨sorder, hsorder⟩ := Option.isSome_iff_exists.mp hso
  obtain ⟨⟨db1, mid⟩, hmv⟩ := resolveMovieMeta_ok_of_metaOK conn.current hmok
  obtain ⟨db2, hcv, _⟩ := resolveCastStep_spec mid names db1
  obtain ⟨dbE, hbE⟩ := insertBlocks_emptyBlock mid ct
    (resolveSongsStep mid sorder db2).2 blocks
    (resolveSongsStep mid sorder db2).1 hempty
  have hld : loadDoc d conn.current = .error (.indexErr, dbE) := by
    unfold loadDoc
    simp only [hmeta, hmv, hnames, hcv, hsorder, hblocks, hct, hbE]
  rw [load_yaml_file_of_error hld]
  exact ⟨rfl, rfl⟩

/-- Witness for C10: the concrete `emptyBlockDoc` on a fresh connection. -/
theorem claim_C10_witness :
    emptyBlockDoc.metadata = some
      { movie_name := some "Empty Block Movie"
        release_date := some "2 February 1982"
        director := some "D"
        producer := some "P"
        music_director := some "M"
        lyricist := some "L"
        cast := some ["Some Actor"] } ∧
    metaOK { movie_name := some "Empty Block Movie"
             release_date := some "2 February 1982"
             director := some "D"
             producer := some "P"
             music_director := some "M"
             lyricist := some "L"
             cast := some ["Some Actor"] } = true ∧
    emptyBlockDoc.commentaries = some [("Hindi", [])] ∧
    (∃ lang, (lang, ([] : List (String × String))) ∈
      ([("Hindi", [])] : List (String × List (String × String)))) ∧
    ((load_yaml_file emptyBlockDoc initConn).2 = some LoadErr.indexErr ∧
     ((load_yaml_file emptyBlockDoc initConn).1).committed = initConn.committed) :=
  ⟨rfl, by decide, rfl, ⟨"Hindi", by decide⟩,
    claim_C10 emptyBlockDoc initConn _ [("Hindi", [])] "short" rfl (by decide)
      (by decide) (by decide) rfl rfl ⟨"Hindi", by decide⟩⟩

/-- Claim C4: movie resolution is idempotent.  If ingesting a document
succeeds on a store whose movie names are unique, then after that ingestion
exactly one Movie row carries the document's movie name; ingesting the same
document again also succeeds, still leaving exactly one such row in both
the session state and the committed store; and on the re-ingestion the
movie-resolution step never errors on the duplicate name — it leaves the
movie table untouched and obtains the existing identity by the
natural-key lookup. -/
theorem claim_C4 (d : RawDoc) (conn : Conn) (nm : String)
    (hU : MoviesUniq conn.current) (hnm : docMovieName d = some nm)
    (h1 : (load_yaml_file d conn).2 = none) :
    countMoviesByName ((load_yaml_file d conn).1).current nm = 1 ∧
    (load_yaml_file d (load_yaml_file d conn).1).2 = none ∧
    countMoviesByName ((load_yaml_file d (load_yaml_file d conn).1).1).current nm = 1 ∧
    countMoviesByName ((load_yaml_file d (load_yaml_file d conn).1).1).committed nm = 1 ∧
    (∀ meta, d.metadata = some meta →
      ∃ dbr mid, resolveMovieMeta meta ((load_yaml_file d conn).1).current =
          .ok (dbr, mid) ∧
        dbr.movies = ((load_yaml_file d conn).1).current.movies ∧
        selectMovieIdByName ((load_yaml_file d conn).1).current nm = some mid) := by
  obtain ⟨db4a, hld, hconn1⟩ := load_yaml_file_ok h1
  have hwf := wellFormed_of_loadDoc_ok hld
  obtain ⟨db4x, mid, hldx, hdich, hsel, hMU, _, _, _, _, _, _, _, _⟩ :=
    loadDoc_run d conn.current nm hwf hnm
  have e : db4x = db4a := Except.ok.inj (hldx.symm.trans hld)
  subst e
  have hex4 : ∃ r ∈ db4x.movies, r.movie_name = nm := by
    rcases hdich with ⟨hnone, ⟨row, hrid, hrnm, hmeq⟩, _, _⟩ | ⟨⟨r, hr, hrn, _⟩, hmeq, _⟩
    · exact ⟨row, by rw [hmeq]; exact List.mem_append_right _ (by simp), hrnm⟩
    · exact ⟨r, by rw [hmeq]; exact hr, hrn⟩
  have hcount1 : countMoviesByName db4x nm = 1 := by
    rcases hdich with ⟨hnone, ⟨row, hrid, hrnm, hmeq⟩, _, _⟩ | ⟨⟨r, hr, hrn, _⟩, hmeq, _⟩
    · unfold countMoviesByName
      rw [hmeq, List.countP_append]
      have hz : conn.current.movies.countP (fun r => r.movie_name == nm) = 0 := by
        rw [List.countP_eq_zero]
        intro a ha
        simp [hnone a ha]
      rw [hz]
      simp [hrnm]
    · rw [countMoviesByName_congr hmeq]
      exact countMovies_one hU hr hrn
  have hMU4 : MoviesUniq db4x := hMU hU
  obtain ⟨db4b, mid2, hld2, hdich2, _, _, _, _, _, _, _, _, _, _⟩ :=
    loadDoc_run d db4x nm hwf hnm
  have hcount2 : countMoviesByName db4b nm = 1 := by
    rcases hdich2 with ⟨hnone2, _, _, _⟩ | ⟨_, hmeq2, _⟩
    · obtain ⟨r, hr, hrn⟩ := hex4
      exact absurd hrn (hnone2 r hr)
    · rw [countMoviesByName_congr hmeq2]
      exact hcount1
  have hsecond : load_yaml_file d (⟨db4x, db4x⟩ : Conn) = (⟨db4b, db4b⟩, none) :=
    @load_yaml_file_of_ok d ⟨db4x, db4x⟩ db4b hld2
  refine ⟨?_, ?_, ?_, ?_, ?_⟩
  · rw [hconn1]
    exact hcount1
  · rw [hconn1, hsecond]
  · rw [hconn1, hsecond]
    exact hcount2
  · rw [hconn1, hsecond]
    exact hcount2
  · intro meta hmeta
    rw [hconn1]
    have hmm : meta.movie_name = some nm := by
      unfold docMovieName at hnm
      rw [hmeta] at hnm
      simpa using hnm
    have hmok2 : metaOK meta = true := by
      unfold wellFormed at hwf
      rw [hmeta] at hwf
      simp only [Bool.and_eq_true] at hwf
      exact hwf.1.1.1.1
    obtain ⟨dbr, midr, hok, _, _, _, _, _, _, hdich3⟩ :=
      resolveMovieMeta_spec meta db4x nm hmok2 hmm
    rcases hdich3 with ⟨hnone3, _, _, _⟩ | ⟨hmeq3, _, hsel3⟩
    · obtain ⟨r, hr, hrn⟩ := hex4
      exact absurd hrn (hnone3 r hr)
    · exact ⟨dbr, midr, hok, hmeq3, hsel3⟩

/-- Witness for C4: `goodDoc` ingested twice on a fresh connection. -/
theorem claim_C4_witness :
    MoviesUniq initConn.current ∧
    docMovieName goodDoc = some "Aan Milo Sajna" ∧
    (load_yaml_file goodDoc initConn).2 = none ∧
    (countMoviesByName ((load_yaml_file goodDoc initConn).1).current
        "Aan Milo Sajna" = 1 ∧
      (load_yaml_file goodDoc (load_yaml_file goodDoc initConn).1).2 = none ∧
      countMoviesByName
        ((load_yaml_file goodDoc (load_yaml_file goodDoc initConn).1).1).current
        "Aan Milo Sajna" = 1 ∧
      countMoviesByName
        ((load_yaml_file goodDoc (load_yaml_file goodDoc initConn).1).1).committed
        "Aan Milo Sajna" = 1 ∧
      (∀ meta, goodDoc.metadata = some meta →
        ∃ dbr mid, resolveMovieMeta meta
            ((load_yaml_file goodDoc initConn).1).current = .ok (dbr, mid) ∧
          dbr.movies = ((load_yaml_file goodDoc initConn).1).current.movies ∧
          selectMovieIdByName ((load_yaml_file goodDoc initConn).1).current
            "Aan Milo Sajna" = some mid)) :=
  ⟨List.Pairwise.nil, rfl, by decide,
    claim_C4 goodDoc initConn "Aan Milo Sajna" List.Pairwise.nil rfl (by decide)⟩

/-- Claim C8: a Movie row is never mutated by re-ingestion.  When the
document's movie name already exists, ingesting the (well-formed) document
leaves the movies table — every attribute of every row — exactly as it
was, and the movie-resolution step reuses the existing row's identity,
obtained by the natural-key lookup, even though the document carries its
own (possibly different) attribute values. -/
theorem claim_C8 (d : RawDoc) (conn : Conn) (nm : String) (r : MovieRow)
    (hU : MoviesUniq conn.current) (hwf : wellFormed d = true)
    (hnm : docMovieName d = some nm)
    (hr : r ∈ conn.current.movies) (hrn : r.movie_name = nm) :
    ((load_yaml_file d conn).1).current.movies = conn.current.movies ∧
    (∀ meta, d.metadata = some meta →
      ∃ db1 mid, resolveMovieMeta meta conn.current = .ok (db1, mid) ∧
        db1.movies = conn.current.movies ∧ mid = r.movie_id) := by
  obtain ⟨db4, mid, hld, hdich, _, _, _, _, _, _, _, _, _, _⟩ :=
    loadDoc_run d conn.current nm hwf hnm
  have hmeq : db4.movies = conn.current.movies := by
    rcases hdich with ⟨hnone, _, _, _⟩ | ⟨_, hmeq, _⟩
    · exact absurd hrn (hnone r hr)
    · exact hmeq
  constructor
  · rw [load_yaml_file_of_ok hld]
    exact hmeq
  · intro meta hmeta
    have hmm : meta.movie_name = some nm := by
      unfold docMovieName at hnm
      rw [hmeta] at hnm
      simpa using hnm
    have hmok : metaOK meta = true := by
      unfold wellFormed at hwf
      rw [hmeta] at hwf
      simp only [Bool.and_eq_true] at hwf
      exact hwf.1.1.1.1
    obtain ⟨db1, mid1, hok, _, _, _, _, _, _, hdich3⟩ :=
      resolveMovieMeta_spec meta conn.current nm hmok hmm
    rcases hdich3 with ⟨hnone3, _, _, _⟩ | ⟨hmeq3, _, hsel3⟩
    · exact absurd hrn (hnone3 r hr)
    · obtain ⟨r2, hr2, hrn2, hri2⟩ := selectMovieIdByName_mem hsel3
      have : r = r2 := movieRow_unique hU hr hr2 (hrn.trans hrn2.symm)
      exact ⟨db1, mid1, hok, hmeq3, by rw [← hri2, this]⟩

/-- Witness for C8: re-ingesting `goodDocAlt` (same movie name, different
attributes) after `goodDoc` has been ingested. -/
theorem claim_C8_witness :
    MoviesUniq ((load_yaml_file goodDoc initConn).1).current ∧
    wellFormed goodDocAlt = true ∧
    docMovieName goodDocAlt = some "Aan Milo Sajna" ∧
    (⟨0, "Aan Milo Sajna", ⟨12, 10, 1970⟩, "Mukul Dutt", "J. Om Prakash",
        "Laxmikant-Pyarelal", "Anand Bakshi"⟩ : MovieRow) ∈
      ((load_yaml_file goodDoc initConn).1).current.movies ∧
    (((load_yaml_file goodDocAlt ((load_yaml_file goodDoc initConn).1)).1).current.movies =
        ((load_yaml_file goodDoc initConn).1).current.movies ∧
      (∀ meta, goodDocAlt.metadata = some meta →
        ∃ db1 mid, resolveMovieMeta meta
            ((load_yaml_file goodDoc initConn).1).current = .ok (db1, mid) ∧
          db1.movies = ((load_yaml_file goodDoc initConn).1).current.movies ∧
          mid = (⟨0, "Aan Milo Sajna", ⟨12, 10, 1970⟩, "Mukul Dutt",
            "J. Om Prakash", "Laxmikant-Pyarelal", "Anand Bakshi"⟩ : MovieRow).movie_id)) :=
  ⟨by decide, by decide, rfl, by decide,
    claim_C8 goodDocAlt ((load_yaml_file goodDoc initConn).1) "Aan Milo Sajna"
      ⟨0, "Aan Milo Sajna", ⟨12, 10, 1970⟩, "Mukul Dutt", "J. Om Prakash",
        "Laxmikant-Pyarelal", "Anand Bakshi"⟩
      (by decide) (by decide) rfl (by decide) rfl⟩

theorem runBatchF_broken (docs : List (RawDoc × Bool)) :
    ∀ c : ConnF, c.broken = true →
      runBatchF docs c = (c, docs.map (fun _ => some LoadErr.connectivity)) := by
  induction docs with
  | nil => intro c hb; rfl
  | cons p rest ih =>
    intro c hb
    obtain ⟨d, f⟩ := p
    have h1 : load_yaml_fileF f d c = (c, some .connectivity) := by
      simp [load_yaml_fileF, hb]
    simp only [runBatchF, h1, List.map_cons]
    rw [ih c hb]

/-- Claim C7, counterexample: a connectivity error while processing the
first document does NOT abort the batch — the catch-all `except` records it
and the loop continues to attempt every remaining document (each attempt on
the now-invalid session fails with a connectivity error of its own, and
nothing further is committed), instead of stopping the run. -/
theorem claim_C7_counterexample :
    (runBatchF [(goodDoc, true), (goodDoc2, false)] ⟨initConn, false⟩).2 =
      [some LoadErr.connectivity, some LoadErr.connectivity] ∧
    countMoviesByName
      (runBatchF [(goodDoc, true), (goodDoc2, false)] ⟨initConn, false⟩).1.conn.committed
      "Anand" = 0 := by
  decide

/-- Claim C7, amended: a connectivity error during batch processing does
not abort the batch: the catch-all `except` records it as a per-document
failure and the loop continues to attempt every remaining document; the
session is invalid from then on, so each remaining attempt fails with a
connectivity error of its own and the connection's state (committed and
pending alike) never changes again. -/
theorem claim_C7 (d1 : RawDoc) (rest : List (RawDoc × Bool)) (c : ConnF)
    (hb : c.broken = false) :
    (runBatchF ((d1, true) :: rest) c).2 =
      some LoadErr.connectivity ::
        rest.map (fun _ => some LoadErr.connectivity) ∧
    (runBatchF ((d1, true) :: rest) c).2.length = rest.length + 1 ∧
    (runBatchF ((d1, true) :: rest) c).1.conn = c.conn ∧
    (runBatchF ((d1, true) :: rest) c).1.broken = true := by
  have h1 : load_yaml_fileF true d1 c =
      ({ c with broken := true }, some .connectivity) := by
    simp [load_yaml_fileF, hb]
  have hrb : runBatchF ((d1, true) :: rest) c =
      ({ c with broken := true },
        some LoadErr.connectivity ::
          rest.map (fun _ => some LoadErr.connectivity)) := by
    simp only [runBatchF, h1]
    rw [runBatchF_broken rest { c with broken := true } rfl]
  rw [hrb]
  exact ⟨rfl, by simp, rfl, rfl⟩

/-- Witness for the amended C7: a fault on the first of two documents. -/
theorem claim_C7_witness :
    (⟨initConn, false⟩ : ConnF).broken = false ∧
    ((runBatchF [(goodDoc, true), (goodDoc2, false)] ⟨initConn, false⟩).2 =
        some LoadErr.connectivity ::
          ([(goodDoc2, false)] : List (RawDoc × Bool)).map
            (fun _ => some LoadErr.connectivity) ∧
      (runBatchF [(goodDoc, true), (goodDoc2, false)] ⟨initConn, false⟩).2.length =
        ([(goodDoc2, false)] : List (RawDoc × Bool)).length + 1 ∧
      (runBatchF [(goodDoc, true), (goodDoc2, false)] ⟨initConn, false⟩).1.conn =
        initConn ∧
      (runBatchF [(goodDoc, true), (goodDoc2, false)] ⟨initConn, false⟩).1.broken =
        true) :=
  ⟨rfl, claim_C7 goodDoc [(goodDoc2, false)] ⟨initConn, false⟩ rfl⟩

theorem selectMovieIdByName_stable {db db1 : DB} {nm : String} {mid : Nat}
    (hsuf : ∃ t, db1.movies = db.movies ++ t)
    (h : selectMovieIdByName db nm = some mid) :
    selectMovieIdByName db1 nm = some mid := by
  obtain ⟨t, ht⟩ := hsuf
  unfold selectMovieIdByName at h ⊢
  rw [ht]
  cases hf : db.movies.find? (fun r => r.movie_name == nm) with
  | none => rw [hf] at h; exact absurd h (by simp)
  | some a =>
    rw [hf] at h
    rw [find?_append_some t hf]
    exact h

/-- Claim C6, counterexample: the claim quantifies over every two documents
sharing a cast name, but when the two documents name the SAME movie
(here the same document twice), ingesting both yields one CastMember row
and only ONE MovieCast association for that member, not two. -/
theorem claim_C6_counterexample :
    selectCastIdByName (runBatch [goodDoc, goodDoc] initConn).1.committed
      "Rajesh Khanna" = some 0 ∧
    (runBatch [goodDoc, goodDoc] initConn).1.committed.movieCast = [(0, 0), (0, 1)] ∧
    ((runBatch [goodDoc, goodDoc] initConn).1.committed.movieCast.countP
      (fun pr => pr.2 == 0)) = 1 := by
  decide

/-- Claim C6, amended: for every two well-formed documents with DISTINCT
movie names that both list the same cast member name, ingesting both on a
fresh store yields exactly one CastMember row for that name and exactly one
MovieCast association per movie (two in total, sharing the stable cast
identity); and repeating the cast-resolution call with the same inputs
changes nothing further. -/
theorem claim_C6 (d1 d2 : RawDoc) (n nm1 nm2 : String)
    (hwf1 : wellFormed d1 = true) (hwf2 : wellFormed d2 = true)
    (hn1 : n ∈ docCast d1) (hn2 : n ∈ docCast d2)
    (hm1 : docMovieName d1 = some nm1) (hm2 : docMovieName d2 = some nm2)
    (hne : nm1 ≠ nm2) :
    (load_yaml_file d1 initConn).2 = none ∧
    (load_yaml_file d2 (load_yaml_file d1 initConn).1).2 = none ∧
    countCastByName ((load_yaml_file d2 (load_yaml_file d1 initConn).1).1).current n = 1 ∧
    (∃ cid mid1 mid2,
      selectCastIdByName
        ((load_yaml_file d2 (load_yaml_file d1 initConn).1).1).current n = some cid ∧
      selectMovieIdByName
        ((load_yaml_file d2 (load_yaml_file d1 initConn).1).1).current nm1 = some mid1 ∧
      selectMovieIdByName
        ((load_yaml_file d2 (load_yaml_file d1 initConn).1).1).current nm2 = some mid2 ∧
      mid1 ≠ mid2 ∧
      countAssoc ((load_yaml_file d2 (load_yaml_file d1 initConn).1).1).current mid1 cid = 1 ∧
      countAssoc ((load_yaml_file d2 (load_yaml_file d1 initConn).1).1).current mid2 cid = 1) ∧
    (∀ (mid : Nat) (names : List String) (db db2 : DB),
      resolveCastStep mid names db = .ok db2 →
      resolveCastStep mid names db2 = .ok db2) := by
  obtain ⟨db4a, mid1, hld1, dich1, sel1a, _, count1, _, hMCU1, mem1, csuf1, mcsuf1, _, _⟩ :=
    loadDoc_run d1 initConn.current nm1 hwf1 hm1
  have hemp : initConn.current.movies = [] := rfl
  have dich1a := dich1.resolve_right (by
    rintro ⟨⟨r, hr, _⟩, _, _⟩
    rw [hemp] at hr
    simp at hr)
  obtain ⟨hnone1, ⟨row1, hrid1, hrnm1, hmeq1⟩, hmid1, hnext1⟩ := dich1a
  obtain ⟨db4b, mid2, hld2, dich2, sel2b, _, count2, _, hMCU2, mem2, csuf2, mcsuf2, _, _⟩ :=
    loadDoc_run d2 db4a nm2 hwf2 hm2
  have dich2a := dich2.resolve_right (by
    rintro ⟨⟨r, hr, hrn, _⟩, _, _⟩
    rw [hmeq1, hemp] at hr
    have hre : r = row1 := by simpa using hr
    subst hre
    exact hne (hrnm1.symm.trans hrn))
  obtain ⟨hnone2, ⟨row2, hrid2, hrnm2, hmeq2⟩, hmid2, hnext2⟩ := dich2a
  have hconn1 : (load_yaml_file d1 initConn).1 = (⟨db4a, db4a⟩ : Conn) := by
    rw [load_yaml_file_of_ok hld1]
  have hsecond : load_yaml_file d2 (⟨db4a, db4a⟩ : Conn) = (⟨db4b, db4b⟩, none) :=
    @load_yaml_file_of_ok d2 ⟨db4a, db4a⟩ db4b hld2
  have hmidne : mid1 ≠ mid2 := by
    rw [hmid1, hmid2, hnext1]
    omega
  have hz1 : countCastByName initConn.current n = 0 := rfl
  have hcount_a : countCastByName db4a n = 1 := by
    rw [count1 n, if_pos ⟨hn1, hz1⟩]
  have hcount_b : countCastByName db4b n = 1 := by
    rw [count2 n, hcount_a, if_neg (by simp)]
  obtain ⟨cid, hsel_a, hpair_a⟩ := mem1 n hn1
  have hsel_b : selectCastIdByName db4b n = some cid :=
    selectCastIdByName_stable csuf2 hsel_a
  obtain ⟨cid2, hsel_b2, hpair_b2⟩ := mem2 n hn2
  have hcid : cid = cid2 := Option.some_inj.mp (hsel_b.symm.trans hsel_b2)
  subst hcid
  have hpair1_b : (mid1, cid) ∈ db4b.movieCast := by
    obtain ⟨t, ht⟩ := mcsuf2
    rw [ht]
    exact List.mem_append_left _ hpair_a
  have hMCUb : MovieCastUniq db4b := hMCU2 (hMCU1 List.Pairwise.nil)
  refine ⟨?_, ?_, ?_, ?_, ?_⟩
  · rw [load_yaml_file_of_ok hld1]
  · rw [hconn1, hsecond]
  · rw [hconn1, hsecond]
    exact hcount_b
  · rw [hconn1, hsecond]
    refine ⟨cid, mid1, mid2, hsel_b, ?_, sel2b, hmidne,
      countAssoc_one hMCUb hpair1_b, countAssoc_one hMCUb hpair_b2⟩
    exact selectMovieIdByName_stable ⟨[row2], hmeq2⟩ sel1a
  · intro mid names db db2 h
    exact resolveCastStep_idem h

/-- Witness for the amended C6: `goodDoc` and `goodDoc2` share the cast
member "Rajesh Khanna" and name different movies. -/
theorem claim_C6_witness :
    wellFormed goodDoc = true ∧ wellFormed goodDoc2 = true ∧
    "Rajesh Khanna" ∈ docCast goodDoc ∧ "Rajesh Khanna" ∈ docCast goodDoc2 ∧
    docMovieName goodDoc = some "Aan Milo Sajna" ∧
    docMovieName goodDoc2 = some "Anand" ∧
    "Aan Milo Sajna" ≠ "Anand" ∧
    (load_yaml_file goodDoc initConn).2 = none ∧
    (load_yaml_file goodDoc2 (load_yaml_file goodDoc initConn).1).2 = none ∧
    countCastByName
      ((load_yaml_file goodDoc2 (load_yaml_file goodDoc initConn).1).1).current
      "Rajesh Khanna" = 1 := by
  have h := claim_C6 goodDoc goodDoc2 "Rajesh Khanna" "Aan Milo Sajna" "Anand"
    (by decide) (by decide) (by decide) (by decide) rfl rfl (by decide)
  exact ⟨by decide, by decide, by decide, by decide, rfl, rfl, by decide,
    h.1, h.2.1, h.2.2.1⟩

/-- Claim C9: referential invariants hold after every (successful)
ingestion.  If the store satisfies referential integrity before the run,
it does afterwards; moreover every commentary row written by the run and
every new song row references the document's resolved movie identity, a
written commentary's non-null song reference names a song of that same
movie, and every association row is either pre-existing or belongs to the
resolved movie. -/
theorem claim_C9 (d : RawDoc) (conn : Conn) (db4 : DB) (nm : String)
    (hRef : RefOK conn.current) (hnm : docMovieName d = some nm)
    (hld : loadDoc d conn.current = .ok db4) :
    RefOK db4 ∧
    ∃ mid, (∃ r ∈ db4.movies, r.movie_name = nm ∧ r.movie_id = mid) ∧
      (∀ c ∈ db4.commentaries.drop conn.current.commentaries.length,
        c.movie_id = mid ∧ ∀ sid ∈ c.song_id.toList,
          ∃ s ∈ db4.songs, s.song_id = sid ∧ s.movie_id = mid) ∧
      (∀ s ∈ db4.songs, (∃ s0 ∈ conn.current.songs, s.song_id = s0.song_id ∧
        s.movie_id = s0.movie_id ∧ s.song_name = s0.song_name) ∨
        s.movie_id = mid) ∧
      (∀ pr ∈ db4.movieCast, pr ∈ conn.current.movieCast ∨ pr.1 = mid) := by
  have hwf := wellFormed_of_loadDoc_ok hld
  obtain ⟨meta, names, sorder, blocks, ct, midD, db1D, db2D, db4D, hmeta, hnames,
    hsorder, hblocks, hctv, hmok, hball, hmv, hcv, hbv, hldD⟩ :=
    loadDoc_decomp d conn.current hwf
  have e0 : db4 = db4D := Except.ok.inj (hld.symm.trans hldD)
  subst e0
  rw [resolveSongsStep_eq] at hbv
  have hmm : meta.movie_name = some nm := by
    unfold docMovieName at hnm
    rw [hmeta] at hnm
    simpa using hnm
  obtain ⟨db1x, midx, hmvx, c1, c2, c3, c4, c5, c6, hdich⟩ :=
    resolveMovieMeta_spec meta conn.current nm hmok hmm
  have hpr := Except.ok.inj (hmvx.symm.trans hmv)
  have e1 : db1x = db1D := congrArg Prod.fst hpr
  have e2 : midx = midD := congrArg Prod.snd hpr
  subst e1
  subst e2
  obtain ⟨db2x, hcvx, r1, r2, r3, r4, r5, ⟨tc, htc⟩, ⟨tm, htm⟩, _, _, _, _⟩ :=
    resolveCastStep_spec midx names db1x
  have e3 : db2x = db2D := Except.ok.inj (hcvx.symm.trans hcv)
  subst e3
  obtain ⟨s1, s2, s3, s4, s5, s6⟩ := insertSongsFrom_frame midx sorder 1 db2x []
  obtain ⟨db4x, hbvx, ⟨tailc, htailc, htailp⟩, b1, b2, b3, b4, b5, b6, b7⟩ :=
    insertBlocks_ok midx ct (insertSongsFrom midx 1 sorder db2x []).2 blocks
      (insertSongsFrom midx 1 sorder db2x []).1 hball
  have e4 : db4x = db4 := Except.ok.inj (hbvx.symm.trans hbv)
  subst e4
  have hmv1 : ∃ m ∈ db1x.movies, m.movie_id = midx := by
    rcases hdich with ⟨_, ⟨row, hrid, _, hmeq⟩, hmid, _⟩ | ⟨hmeq, _, hsel⟩
    · exact ⟨row, by rw [hmeq]; exact List.mem_append_right _ (by simp),
        by rw [hrid, hmid]⟩
    · obtain ⟨r, hr, _, hri⟩ := selectMovieIdByName_mem hsel
      exact ⟨r, by rw [hmeq]; exact hr, hri⟩
  have hRef1 : RefOK db1x := by
    refine RefOK_movies_extend hRef ?_ c1 c2 c3 c4
    rcases hdich with ⟨_, ⟨row, _, _, hmeq⟩, _, _⟩ | ⟨hmeq, _, _⟩
    · exact ⟨[row], hmeq⟩
    · exact ⟨[], by rw [hmeq]; simp⟩
  have hRef2 : RefOK db2x :=
    RefOK_cast_stage hRef1 hmv1 r1 r2 r3 ⟨tc, htc⟩ (resolveCastStep_pairs hcv)
  have hmv2 : ∃ m ∈ db2x.movies, m.movie_id = midx := by
    obtain ⟨m, hm, he⟩ := hmv1
    exact ⟨m, by rw [r1]; exact hm, he⟩
  have hRefP : RefOK (insertSongsFrom midx 1 sorder db2x []).1 :=
    RefOK_songs_stage hRef2 hmv2 s1 s2 s3 s4
      (insertSongsFrom_pres midx sorder 1 db2x [])
      (insertSongsFrom_new midx sorder 1 db2x [])
  have hmv3 : ∃ m ∈ (insertSongsFrom midx 1 sorder db2x []).1.movies,
      m.movie_id = midx := by
    obtain ⟨m, hm, he⟩ := hmv2
    exact ⟨m, by rw [s1]; exact hm, he⟩
  have hmap : ∀ pr ∈ (insertSongsFrom midx 1 sorder db2x []).2,
      ∃ s ∈ (insertSongsFrom midx 1 sorder db2x []).1.songs,
        s.song_id = pr.2 ∧ s.movie_id = midx := by
    refine insertSongsFrom_mapping midx sorder 1 db2x [] ?_
    intro pr hpr
    exact absurd hpr (by simp)
  have htprop2 : ∀ c ∈ tailc, c.movie_id = midx ∧ ∀ sid ∈ c.song_id.toList,
      ∃ s ∈ (insertSongsFrom midx 1 sorder db2x []).1.songs,
        s.song_id = sid ∧ s.movie_id = midx := by
    intro c hc
    obtain ⟨h1, h2⟩ := htailp c hc
    refine ⟨h1, ?_⟩
    intro sid hsid
    obtain ⟨pr, hpr, he⟩ := List.mem_map.mp (h2 sid hsid)
    obtain ⟨s, hs, g1, g2⟩ := hmap pr hpr
    exact ⟨s, hs, g1.trans he, g2⟩
  have hRef4 : RefOK db4x :=
    RefOK_comm_stage hRefP hmv3 b1 b2 b3 b4 htailc htprop2
  have hmoviesChain : db4x.movies = db1x.movies := (b1.trans s1).trans r1
  have hcommChain : db4x.commentaries = conn.current.commentaries ++ tailc := by
    rw [htailc, s4, r3, c4]
  refine ⟨hRef4, midx, ?_, ?_, ?_, ?_⟩
  · rcases hdich with ⟨_, ⟨row, hrid, hrnm, hmeq⟩, hmid, _⟩ | ⟨hmeq, _, hsel⟩
    · exact ⟨row, by rw [hmoviesChain, hmeq]; exact List.mem_append_right _ (by simp),
        hrnm, by rw [hrid, hmid]⟩
    · obtain ⟨r, hr, hrn, hri⟩ := selectMovieIdByName_mem hsel
      exact ⟨r, by rw [hmoviesChain, hmeq]; exact hr, hrn, hri⟩
  · intro c hc
    rw [hcommChain, List.drop_left] at hc
    obtain ⟨h1, h2⟩ := htprop2 c hc
    refine ⟨h1, ?_⟩
    intro sid hsid
    obtain ⟨s, hs, g1, g2⟩ := h2 sid hsid
    exact ⟨s, by rw [b4]; exact hs, g1, g2⟩
  · intro s hs
    rw [b4] at hs
    rcases insertSongsFrom_new midx sorder 1 db2x [] s hs with ⟨s0, hs0, g1, g2, g3⟩ | hm
    · refine Or.inl ⟨s0, ?_, g1, g2, g3⟩
      rw [← c3, ← r2]
      exact hs0
    · exact Or.inr hm
  · intro pr hpr
    rw [b3, s3] at hpr
    rcases resolveCastStep_pairs hcv pr hpr with h2 | h2
    · refine Or.inl ?_
      rw [← c2]
      exact h2
    · exact Or.inr h2.1

/-- Witness for C9: ingesting `goodDoc` on a fresh connection reaches the
store `goodDocDB`, which satisfies referential integrity. -/
theorem claim_C9_witness :
    RefOK initConn.current ∧
    docMovieName goodDoc = some "Aan Milo Sajna" ∧
    loadDoc goodDoc initConn.current = .ok goodDocDB ∧
    RefOK goodDocDB := by
  have h := claim_C9 goodDoc initConn goodDocDB "Aan Milo Sajna"
    (by decide) rfl (by rfl)
  exact ⟨by decide, rfl, by rfl, h.1⟩

end MovieDB
